import Mathlib

/-!
Shallow embedding of the ACC token contract (src/token.cpp, an EOSIO CONTRACT)
and proofs about its balance/staking engine.

Modelling conventions:
* eosio `name` values (accounts, config keys) are abstracted as `Nat`; the
  contract account `_self` is the constant `SELF`.  Distinct C++ name constants
  are mapped to distinct naturals.
* `asset` is a pair of an `Int` amount and a `Symbol` (code + precision).
  `asset::operator+=` / `-=` carry the eosio symbol-equality and
  `max_amount`-range checks and are modelled by `Asset.addChecked` /
  `Asset.subChecked`.  Direct arithmetic on the raw `.amount` field
  (e.g. `row.asset.amount += quantity.amount` in `stake`) has no checks in the
  C++ and is modelled as exact integer arithmetic; two's-complement wrap of
  int64 is not modelled (every amount the contract accepts is range-checked to
  |a| <= 2^62 - 1, far below the wrap boundary, and the reachable-state
  invariants proved below keep all stored staking quantities inside
  [0, 2^62 - 1]).
* An eosio `multi_index` table scoped by `scope` with primary key `pk` is a
  `List (Nat × Row)` of (scope, row) pairs; `find` is the first (scope, pk)
  match, `modify`/`erase` act on that first match (a multi_index holds at most
  one row per key; uniqueness is re-proved as an invariant of reachable
  states rather than assumed).
* Every ACTION is a function `... -> State -> Except Err State`.  The host
  chain executes an action all-or-nothing, so a thrown `eosio_assert` (any
  `.error`) leaves the persisted state untouched: an `Except.error` result
  carries no state.  `require_auth`/`has_auth` are modelled by membership in
  an `auth : List Nat` argument (the set of principals that authorized the
  call).  `current_time()` is passed in as a `now : Nat` argument.
* `std::string` values (config table values, memos) are byte lists
  (`List Nat`); `std::to_string` and `std::stoul`/`stoull` are modelled on
  those byte lists (`natToBytes`, `stoulModel`).  `stoul` aborts the action on
  a non-numeric argument (std::invalid_argument escapes to the wasm trap).
* `cancel_deferred` and `transaction::send` only talk to the host scheduler
  and touch no contract table; they are not modelled (the deferred callback
  itself is the `deferrelease` action).  `require_recipient` and `print` are
  no-ops on state.
-/

set_option linter.unusedVariables false

namespace ACCToken

/-- eosio asset::max_amount = 2^62 - 1. -/
def maxAmount : Int := 4611686018427387903

/-- The contract account `_self`. -/
def SELF : Nat := 0

/-- An eosio symbol: 56-bit code (here an abstract `Nat`) plus a decimal
precision.  `symbol.code().raw()` is the `code` field. -/
structure Symbol where
  code : Nat
  precision : Nat
deriving DecidableEq, Repr

/-- Is `b` the byte of an uppercase letter A..Z? -/
def isUpperByte (b : Nat) : Bool := 65 ≤ b && b ≤ 90

/-- Mirrors eosio `symbol_code::is_valid`: up to seven bytes, each A..Z,
low byte first, with zero padding above; once a zero byte is met all
remaining bytes must be zero. -/
def symCodeValidAux : Nat → Nat → Bool
  | 0, _ => true
  | Nat.succ k, v =>
    if isUpperByte (v % 256) then
      let v2 := v / 256
      if v2 % 256 == 0 then v2 == 0
      else symCodeValidAux k v2
    else false

def symCodeValid (v : Nat) : Bool := symCodeValidAux 7 v

/-- eosio `symbol::is_valid()` just checks the code. -/
def Symbol.is_valid (s : Symbol) : Bool := symCodeValid s.code

structure Asset where
  amount : Int
  sym : Symbol
deriving DecidableEq, Repr

/-- eosio `asset::is_valid()`: amount within ±max_amount and valid symbol. -/
def Asset.is_valid (a : Asset) : Bool :=
  (-maxAmount ≤ a.amount && a.amount ≤ maxAmount) && a.sym.is_valid

/-- Every way an action can abort (each constructor corresponds to one
`eosio_assert`/library check reachable from the translated code; comments give
the C++ message). -/
inductive Err where
  | missingAuthority          -- require_auth failure ("missing authority of ...")
  | notAllowInit              -- "not allow init."
  | invalidSymbolName         -- "invalid symbol name"
  | invalidSupply             -- "invalid supply"
  | maxSupplyNotPositive      -- "max-supply must be positive"
  | symbolAlreadyExists       -- "token with symbol already exists"
  | statusNotAllowed          -- "current status do not allow doing this action."
  | stoulInvalidArgument      -- std::stoul / std::stoull on a non-numeric string
  | memoTooLong               -- "memo has more than 256 bytes"
  | tokenNotExist             -- "token with symbol does not exist, create token before issue"
  | invalidQuantity           -- "invalid quantity"
  | mustIssuePositive         -- "must issue positive quantity"
  | precisionMismatch         -- "symbol precision mismatch"
  | supplyExceeded            -- "quantity exceeds available supply"
  | cannotTransferToSelf      -- "cannot transfer to self"
  | noPermission              -- "has no permission"
  | toAccountNotExist         -- "to account does not exist"
  | unableToFindKey           -- multi_index::get default failure ("unable to find key")
  | mustTransferPositive      -- "must transfer positive quantity"
  | noBalanceObject           -- "no balance object found"
  | overdrawnBalance          -- "overdrawn balance"
  | invalidTokenTransfer      -- "Invalid token transfer"
  | quantityMustBePositive    -- "Quantity must be positive"
  | userHasNotStaked          -- "user has not stake yets. "
  | stakeQuantityNotEnough    -- "stack quantity not enough."
  | unstakeTimeNotSet         -- "unstake time not set."
  | cannotDereferenceEnd      -- multi_index const_iterator: "cannot dereference end iterator"
  | cannotModifyEnd           -- multi_index::modify: "cannot pass end iterator to modify"
  | assetSymbolMismatch       -- asset +=/-=: "attempt to add/subtract asset with different symbol"
  | additionOverflow          -- asset +=: "addition overflow" / "addition underflow"
  | subtractionOverflow       -- asset -=: "subtraction overflow" / "subtraction underflow"
  | belowCurrentSupply        -- spec-modelled raise_cap: BelowCurrentSupply
deriving DecidableEq, Repr

/-- eosio `asset::operator+=`. -/
def Asset.addChecked (a b : Asset) : Except Err Asset :=
  if a.sym ≠ b.sym then .error .assetSymbolMismatch
  else if a.amount + b.amount < -maxAmount then .error .additionOverflow
  else if maxAmount < a.amount + b.amount then .error .additionOverflow
  else .ok ⟨a.amount + b.amount, a.sym⟩

/-- eosio `asset::operator-=`. -/
def Asset.subChecked (a b : Asset) : Except Err Asset :=
  if a.sym ≠ b.sym then .error .assetSymbolMismatch
  else if a.amount - b.amount < -maxAmount then .error .subtractionOverflow
  else if maxAmount < a.amount - b.amount then .error .subtractionOverflow
  else .ok ⟨a.amount - b.amount, a.sym⟩

/-- C++ conversion of an int64 value to uint64 (`uint64_t stake_amount = ...`). -/
def toUint64 (i : Int) : Nat := (i % 18446744073709551616).toNat

/- ---------------------------------------------------------------------
Table rows (TABLE declarations of token.cpp).
--------------------------------------------------------------------- -/

/-- TABLE account (scope: owner; primary key: balance.symbol.code). -/
structure AccountRow where
  balance : Asset
  lockBalance : Asset
  stakeBalance : Asset
deriving DecidableEq, Repr

/-- TABLE currency_stats (scope: symbol code; primary key: supply.symbol.code). -/
structure CurrencyStats where
  supply : Asset
  maxSupply : Asset
  issuer : Nat
deriving DecidableEq, Repr

/-- TABLE config_table (scope: _self; primary key: key). -/
structure ConfigRow where
  key : Nat
  value : List Nat     -- std::string as a byte list
deriving DecidableEq, Repr

/-- TABLE stake_stats (scope: symbol code; primary key: staking.symbol.code). -/
structure StakeStatsRow where
  staking : Asset
  unstaking : Asset
deriving DecidableEq, Repr

/-- TABLE staking_log (scope: symbol code; primary key: user). -/
structure StakingLogRow where
  user : Nat
  asset : Asset
deriving DecidableEq, Repr

/-- TABLE unstaking_log (scope: symbol code; primary key: user). -/
structure UnstakingLogRow where
  user : Nat
  asset : Asset
  requestTime : Nat
deriving DecidableEq, Repr

/-- All persisted tables plus the host-chain account registry consulted by
`is_account` (constant: no contract action creates chain accounts). -/
structure State where
  configs : List ConfigRow
  stats : List CurrencyStats
  accounts : List (Nat × AccountRow)          -- (owner, row)
  stakeStats : List (Nat × StakeStatsRow)     -- (scope code, row)
  stakingLogs : List (Nat × StakingLogRow)    -- (scope code, row)
  unstakingLogs : List (Nat × UnstakingLogRow)
  chainAccounts : List Nat
deriving DecidableEq, Repr

def initialState (chain : List Nat) : State :=
  { configs := [], stats := [], accounts := [], stakeStats := [],
    stakingLogs := [], unstakingLogs := [], chainAccounts := chain }

/- ---------------------------------------------------------------------
Generic first-match table operations (multi_index find / modify / erase).
--------------------------------------------------------------------- -/

def modifyFirst {α : Type} (p : α → Bool) (f : α → α) : List α → List α
  | [] => []
  | x :: xs => if p x then f x :: xs else x :: modifyFirst p f xs

def eraseFirst {α : Type} (p : α → Bool) : List α → List α
  | [] => []
  | x :: xs => if p x then xs else x :: eraseFirst p xs

/- Key predicates for each table. -/

def cfgMatch (k : Nat) : ConfigRow → Bool := fun c => c.key == k

def stMatch (code : Nat) : CurrencyStats → Bool := fun st => st.supply.sym.code == code

def accMatch (owner code : Nat) : Nat × AccountRow → Bool :=
  fun e => e.1 == owner && e.2.balance.sym.code == code

def ssMatch (code : Nat) : Nat × StakeStatsRow → Bool :=
  fun e => e.1 == code && e.2.staking.sym.code == code

def slMatch (code user : Nat) : Nat × StakingLogRow → Bool :=
  fun e => e.1 == code && e.2.user == user

def ulMatch (code user : Nat) : Nat × UnstakingLogRow → Bool :=
  fun e => e.1 == code && e.2.user == user

def cfgFind (l : List ConfigRow) (k : Nat) : Option ConfigRow := l.find? (cfgMatch k)

def stFind (l : List CurrencyStats) (code : Nat) : Option CurrencyStats := l.find? (stMatch code)

def stMod (l : List CurrencyStats) (code : Nat) (f : CurrencyStats → CurrencyStats) :
    List CurrencyStats := modifyFirst (stMatch code) f l

def accFind (l : List (Nat × AccountRow)) (owner code : Nat) : Option AccountRow :=
  (l.find? (accMatch owner code)).map (fun e => e.2)

def accMod (l : List (Nat × AccountRow)) (owner code : Nat) (f : AccountRow → AccountRow) :
    List (Nat × AccountRow) := modifyFirst (accMatch owner code) (fun e => (e.1, f e.2)) l

def ssFind (l : List (Nat × StakeStatsRow)) (code : Nat) : Option StakeStatsRow :=
  (l.find? (ssMatch code)).map (fun e => e.2)

def ssMod (l : List (Nat × StakeStatsRow)) (code : Nat) (f : StakeStatsRow → StakeStatsRow) :
    List (Nat × StakeStatsRow) := modifyFirst (ssMatch code) (fun e => (e.1, f e.2)) l

def slFind (l : List (Nat × StakingLogRow)) (code user : Nat) : Option StakingLogRow :=
  (l.find? (slMatch code user)).map (fun e => e.2)

def slMod (l : List (Nat × StakingLogRow)) (code user : Nat)
    (f : StakingLogRow → StakingLogRow) : List (Nat × StakingLogRow) :=
  modifyFirst (slMatch code user) (fun e => (e.1, f e.2)) l

def slErase (l : List (Nat × StakingLogRow)) (code user : Nat) : List (Nat × StakingLogRow) :=
  eraseFirst (slMatch code user) l

def ulFind (l : List (Nat × UnstakingLogRow)) (code user : Nat) : Option UnstakingLogRow :=
  (l.find? (ulMatch code user)).map (fun e => e.2)

def ulMod (l : List (Nat × UnstakingLogRow)) (code user : Nat)
    (f : UnstakingLogRow → UnstakingLogRow) : List (Nat × UnstakingLogRow) :=
  modifyFirst (ulMatch code user) (fun e => (e.1, f e.2)) l

def ulErase (l : List (Nat × UnstakingLogRow)) (code user : Nat) : List (Nat × UnstakingLogRow) :=
  eraseFirst (ulMatch code user) l

/- ---------------------------------------------------------------------
std::to_string / std::stoul on byte lists.
--------------------------------------------------------------------- -/

def digitVal? (b : Nat) : Option Nat := if 48 ≤ b && b ≤ 57 then some (b - 48) else none

def parseDigitsAcc : List Nat → Nat → Nat
  | [], acc => acc
  | b :: bs, acc =>
    match digitVal? b with
    | some d => parseDigitsAcc bs (acc * 10 + d)
    | none => acc

/-- std::stoul / std::stoull on a canonical byte string: a leading digit run is
converted, no digits at all raises std::invalid_argument (modelled `none`).
(Leading whitespace/sign forms never occur in this contract's stored values.) -/
def stoulModel : List Nat → Option Nat
  | [] => none
  | b :: bs =>
    match digitVal? b with
    | none => none
    | some _ => some (parseDigitsAcc (b :: bs) 0)

def natToBytesAux : Nat → Nat → List Nat → List Nat
  | 0, _, acc => acc
  | Nat.succ fuel, n, acc =>
    let acc2 := (48 + n % 10) :: acc
    if n < 10 then acc2 else natToBytesAux fuel (n / 10) acc2

/-- std::to_string of a natural number, as a byte list. -/
def natToBytes (n : Nat) : List Nat := natToBytesAux (n + 1) n []

/- ---------------------------------------------------------------------
Config constants and private helpers of the contract.
--------------------------------------------------------------------- -/

/-- Config keys (the C++ eosio name constants, abstracted as distinct Nats):
CONFIG_INIT, CONFIG_STAKE_STATUS ("sstatus"), CONFIG_ISSUE_STATUS
("istatus"), CONFIG_TRANSFER_STATUS ("tstatus"), CONFIG_UNSTAKE_TIME
("unstaketime"). -/
def cfgInitKey : Nat := 1
def cfgSStatus : Nat := 2
def cfgIStatus : Nat := 3
def cfgTStatus : Nat := 4
def cfgUnstakeTime : Nat := 5

/-- Byte strings used by the contract. -/
def strZero : List Nat := [48]                    -- "0"
def strOne : List Nat := [49]                     -- "1"
def str86400 : List Nat := [56, 54, 52, 48, 48]   -- "86400"

/-- `set_config` table write (find + emplace-or-modify). -/
def cfgSet (l : List ConfigRow) (k : Nat) (v : List Nat) : List ConfigRow :=
  match cfgFind l k with
  | none => { key := k, value := v } :: l
  | some _ => modifyFirst (cfgMatch k) (fun c => { c with value := v }) l

/-- private `set_config`: require_auth(_self), then write the row. -/
def set_config (k : Nat) (v : List Nat) (auth : List Nat) (s : State) : Except Err State :=
  if auth.contains SELF then .ok { s with configs := cfgSet s.configs k v }
  else .error .missingAuthority

/-- private `assert_status`: the row must exist and stoul(value) must be > 0. -/
def assert_status (s : State) (key : Nat) : Except Err Unit :=
  match cfgFind s.configs key with
  | none => .error .statusNotAllowed
  | some c =>
    match stoulModel c.value with
    | none => .error .stoulInvalidArgument
    | some v => if 0 < v then .ok () else .error .statusNotAllowed

/-- private `get_unstake_time`: the row must exist; stoull(value). -/
def get_unstake_time (s : State) : Except Err Nat :=
  match cfgFind s.configs cfgUnstakeTime with
  | none => .error .unstakeTimeNotSet
  | some c =>
    match stoulModel c.value with
    | none => .error .stoulInvalidArgument
    | some v => .ok v

/-- private `sub_balance`. -/
def sub_balance (owner : Nat) (value : Asset) (s : State) : Except Err State :=
  match accFind s.accounts owner value.sym.code with
  | none => .error .noBalanceObject
  | some frm =>
    if ¬ (value.amount ≤ frm.balance.amount - frm.lockBalance.amount - frm.stakeBalance.amount) then
      .error .overdrawnBalance
    else
      match Asset.subChecked frm.balance value with
      | .error e => .error e
      | .ok nb =>
        let acts := accMod s.accounts owner value.sym.code (fun a => { a with balance := nb })
        .ok { s with accounts := acts }

/-- private `add_balance`. -/
def add_balance (owner : Nat) (value : Asset) (s : State) : Except Err State :=
  match accFind s.accounts owner value.sym.code with
  | none =>
    let row : AccountRow :=
      { balance := value, lockBalance := ⟨0, value.sym⟩, stakeBalance := ⟨0, value.sym⟩ }
    .ok { s with accounts := (owner, row) :: s.accounts }
  | some dst =>
    match Asset.addChecked dst.balance value with
    | .error e => .error e
    | .ok nb =>
      let acts := accMod s.accounts owner value.sym.code (fun a => { a with balance := nb })
      .ok { s with accounts := acts }

/- ---------------------------------------------------------------------
ACTIONs.
--------------------------------------------------------------------- -/

def initConfigs (l : List ConfigRow) : List ConfigRow :=
  cfgSet (cfgSet (cfgSet (cfgSet (cfgSet l
    cfgSStatus strOne) cfgIStatus strOne) cfgTStatus strOne)
    cfgUnstakeTime str86400) cfgInitKey strOne

/-- The init guard: `itr == configtable.end() || itr->value == "0"`. -/
def initAllowed (s : State) : Bool :=
  match cfgFind s.configs cfgInitKey with
  | none => true
  | some c => c.value == strZero

/-- ACTION init. -/
def init (auth : List Nat) (s : State) : Except Err State :=
  if ¬ auth.contains SELF then .error .missingAuthority
  else if initAllowed s then .ok { s with configs := initConfigs s.configs }
  else .error .notAllowInit

/-- ACTION create. -/
def create (issuer : Nat) (maximum_supply : Asset) (auth : List Nat) (s : State) :
    Except Err State :=
  if ¬ auth.contains SELF then .error .missingAuthority
  else if ¬ maximum_supply.sym.is_valid then .error .invalidSymbolName
  else if ¬ maximum_supply.is_valid then .error .invalidSupply
  else if ¬ (0 < maximum_supply.amount) then .error .maxSupplyNotPositive
  else
    match stFind s.stats maximum_supply.sym.code with
    | some _ => .error .symbolAlreadyExists
    | none =>
      let row : CurrencyStats :=
        { supply := ⟨0, maximum_supply.sym⟩, maxSupply := maximum_supply, issuer := issuer }
      .ok { s with stats := row :: s.stats }

/-- ACTION transfer. -/
def transfer (frm dst : Nat) (quantity : Asset) (memo : List Nat) (auth : List Nat)
    (s : State) : Except Err State :=
  match assert_status s cfgTStatus with
  | .error e => .error e
  | .ok _ =>
    if frm == dst then .error .cannotTransferToSelf
    else if ¬ auth.contains frm then .error .noPermission
    else if ¬ s.chainAccounts.contains dst then .error .toAccountNotExist
    else
      match stFind s.stats quantity.sym.code with
      | none => .error .unableToFindKey
      | some st =>
        if ¬ quantity.is_valid then .error .invalidQuantity
        else if ¬ (0 < quantity.amount) then .error .mustTransferPositive
        else if ¬ (quantity.sym == st.supply.sym) then .error .precisionMismatch
        else if ¬ (memo.length ≤ 256) then .error .memoTooLong
        else
          match sub_balance frm quantity s with
          | .error e => .error e
          | .ok s1 => add_balance dst quantity s1

/-- ACTION issue.  When `to` differs from the issuer, the trailing
SEND_INLINE_ACTION runs `transfer` in the same transaction with the issuer's
authorization. -/
def issue (dst : Nat) (quantity : Asset) (memo : List Nat) (auth : List Nat) (s : State) :
    Except Err State :=
  match assert_status s cfgIStatus with
  | .error e => .error e
  | .ok _ =>
    if ¬ quantity.sym.is_valid then .error .invalidSymbolName
    else if ¬ (memo.length ≤ 256) then .error .memoTooLong
    else
      match stFind s.stats quantity.sym.code with
      | none => .error .tokenNotExist
      | some st =>
        if ¬ auth.contains st.issuer then .error .missingAuthority
        else if ¬ quantity.is_valid then .error .invalidQuantity
        else if ¬ (0 < quantity.amount) then .error .mustIssuePositive
        else if ¬ (quantity.sym == st.supply.sym) then .error .precisionMismatch
        else if ¬ (quantity.amount ≤ st.maxSupply.amount - st.supply.amount) then
          .error .supplyExceeded
        else
          match Asset.addChecked st.supply quantity with
          | .error e => .error e
          | .ok ns =>
            match add_balance st.issuer quantity { s with stats := stMod s.stats quantity.sym.code (fun r => { r with supply := ns }) } with
            | .error e => .error e
            | .ok s2 =>
              if dst == st.issuer then .ok s2
              else transfer st.issuer dst quantity memo [st.issuer] s2

/-- ACTION lock.  (Note: the C++ performs no positivity or validity check on
`quantity`.) -/
def lock (account : Nat) (quantity : Asset) (auth : List Nat) (s : State) :
    Except Err State :=
  if ¬ auth.contains SELF then .error .missingAuthority
  else
    match accFind s.accounts account quantity.sym.code with
    | none => .error .noBalanceObject
    | some l =>
      if ¬ (quantity.amount ≤ l.balance.amount - l.lockBalance.amount - l.stakeBalance.amount) then
        .error .overdrawnBalance
      else
        match Asset.addChecked l.lockBalance quantity with
        | .error e => .error e
        | .ok nl =>
          let acts := accMod s.accounts account quantity.sym.code (fun a => { a with lockBalance := nl })
          .ok { s with accounts := acts }

/-- ACTION unlock.  (Same absence of a positivity check.) -/
def unlock (account : Nat) (quantity : Asset) (auth : List Nat) (s : State) :
    Except Err State :=
  if ¬ auth.contains SELF then .error .missingAuthority
  else
    match accFind s.accounts account quantity.sym.code with
    | none => .error .noBalanceObject
    | some u =>
      if ¬ (quantity.amount ≤ u.lockBalance.amount) then .error .overdrawnBalance
      else
        match Asset.subChecked u.lockBalance quantity with
        | .error e => .error e
        | .ok nl =>
          let acts := accMod s.accounts account quantity.sym.code (fun a => { a with lockBalance := nl })
          .ok { s with accounts := acts }

/-- The "save staking log" block of `stake`: emplace a fresh StakeLogEntry or
add to the existing one (direct `.amount` arithmetic, no checks). -/
def stakeLogUpsert (l : List (Nat × StakingLogRow)) (code frm : Nat) (quantity : Asset) :
    List (Nat × StakingLogRow) :=
  match slFind l code frm with
  | none => (code, { user := frm, asset := quantity }) :: l
  | some _ =>
    slMod l code frm
      (fun r => { r with asset := { r.asset with amount := r.asset.amount + quantity.amount } })

/-- The "update stats" block of `stake`: emplace a fresh StakeStat row or add
to its staking amount. -/
def stakeStatsUpsert (l : List (Nat × StakeStatsRow)) (code : Nat) (quantity : Asset) :
    List (Nat × StakeStatsRow) :=
  match ssFind l code with
  | none => (code, { staking := quantity, unstaking := ⟨0, quantity.sym⟩ }) :: l
  | some _ =>
    ssMod l code
      (fun r => { r with staking := { r.staking with amount := r.staking.amount + quantity.amount } })

/-- ACTION stake. -/
def stake (frm : Nat) (quantity : Asset) (auth : List Nat) (s : State) : Except Err State :=
  if ¬ auth.contains frm then .error .missingAuthority
  else
    match assert_status s cfgSStatus with
    | .error e => .error e
    | .ok _ =>
      if ¬ quantity.is_valid then .error .invalidTokenTransfer
      else if ¬ (0 < quantity.amount) then .error .quantityMustBePositive
      else
        match accFind s.accounts frm quantity.sym.code with
        | none => .error .noBalanceObject
        | some acc =>
          if ¬ (quantity.amount ≤
              acc.balance.amount - acc.lockBalance.amount - acc.stakeBalance.amount) then
            .error .overdrawnBalance
          else
            match Asset.addChecked acc.stakeBalance quantity with
            | .error e => .error e
            | .ok nsb =>
              .ok { s with
                stakingLogs := stakeLogUpsert s.stakingLogs quantity.sym.code frm quantity,
                stakeStats := stakeStatsUpsert s.stakeStats quantity.sym.code quantity,
                accounts := accMod s.accounts frm quantity.sym.code (fun a => { a with stakeBalance := nsb }) }

/-- The "update staking log" block of `unstake`: erase the StakeLogEntry when
the whole amount is unstaked, decrement it otherwise.  Both the guard and this
comparison are uint64 comparisons in the C++ (`uint64_t stake_amount`). -/
def unstakeLogUpdate (l : List (Nat × StakingLogRow)) (code frm : Nat) (quantity : Asset)
    (sl : StakingLogRow) : List (Nat × StakingLogRow) :=
  if toUint64 quantity.amount == toUint64 sl.asset.amount then
    slErase l code frm
  else
    slMod l code frm
      (fun r => { r with asset := { r.asset with amount := r.asset.amount - quantity.amount } })

/-- The "save unstaking log" block of the deferred path: emplace a fresh
UnstakeLogEntry, or accumulate into the existing one (`unstake.asset +=
quantity` is the checked asset addition) refreshing request_time. -/
def unstakeLogUpsert (l : List (Nat × UnstakingLogRow)) (code frm : Nat) (quantity : Asset)
    (now : Nat) : Except Err (List (Nat × UnstakingLogRow)) :=
  match ulFind l code frm with
  | none => .ok ((code, { user := frm, asset := quantity, requestTime := now }) :: l)
  | some ul =>
    match Asset.addChecked ul.asset quantity with
    | .error e => .error e
    | .ok na => .ok (ulMod l code frm (fun r => { r with asset := na, requestTime := now }))

/-- ACTION unstake.  `isinstance` is the int8_t flag (nonzero = immediate). -/
def unstake (frm : Nat) (quantity : Asset) (isinstance : Int) (auth : List Nat)
    (now : Nat) (s : State) : Except Err State :=
  if ¬ (auth.contains frm || auth.contains SELF) then .error .noPermission
  else
    match assert_status s cfgSStatus with
    | .error e => .error e
    | .ok _ =>
      if ¬ quantity.is_valid then .error .invalidTokenTransfer
      else if ¬ (0 < quantity.amount) then .error .quantityMustBePositive
      else
        match slFind s.stakingLogs quantity.sym.code frm with
        | none => .error .userHasNotStaked
        | some sl =>
          if ¬ (toUint64 quantity.amount ≤ toUint64 sl.asset.amount) then
            .error .stakeQuantityNotEnough
          else if ¬ (isinstance == 0) then
            -- immediate path
            if ¬ auth.contains SELF then .error .missingAuthority
            else
              match ssFind s.stakeStats quantity.sym.code with
              | none => .error .cannotModifyEnd
              | some _ =>
                match accFind s.accounts frm quantity.sym.code with
                | none => .error .noBalanceObject
                | some _ =>
                  .ok { s with
                    stakingLogs := unstakeLogUpdate s.stakingLogs quantity.sym.code frm quantity sl,
                    stakeStats := ssMod s.stakeStats quantity.sym.code
                      (fun r => { r with staking := { r.staking with amount := r.staking.amount - quantity.amount } }),
                    accounts := accMod s.accounts frm quantity.sym.code
                      (fun a => { a with stakeBalance := { a.stakeBalance with amount := a.stakeBalance.amount - quantity.amount } }) }
          else
            -- deferred path
            match unstakeLogUpsert s.unstakingLogs quantity.sym.code frm quantity now with
            | .error e => .error e
            | .ok ulogs =>
              match ssFind s.stakeStats quantity.sym.code with
              | none => .error .cannotModifyEnd
              | some _ =>
                -- out.delay_sec = get_unstake_time(); cancel_deferred; out.send
                -- (scheduler calls: no table effect, but get_unstake_time can abort)
                match get_unstake_time s with
                | .error e => .error e
                | .ok _delay =>
                  .ok { s with
                    stakingLogs := unstakeLogUpdate s.stakingLogs quantity.sym.code frm quantity sl,
                    unstakingLogs := ulogs,
                    stakeStats := ssMod s.stakeStats quantity.sym.code
                      (fun r => { r with
                        unstaking := { r.unstaking with amount := r.unstaking.amount + quantity.amount },
                        staking := { r.staking with amount := r.staking.amount - quantity.amount } }) }

/-- ACTION deferrelease.  The C++ dereferences the `find` iterator without an
existence check; on an absent row the eosio.cdt iterator check
("cannot dereference end iterator") aborts the action before any write.
`uint64_t amount = unstaking->asset.amount` followed by
`row.... -= amount` round-trips int64 -> uint64 -> int64, which is the
identity on the stored value, so the subtraction is by `ul.asset.amount`. -/
def deferrelease (frm : Nat) (sym : Symbol) (auth : List Nat) (s : State) :
    Except Err State :=
  if ¬ auth.contains SELF then .error .missingAuthority
  else
    match ulFind s.unstakingLogs sym.code frm with
    | none => .error .cannotDereferenceEnd
    | some ul =>
      match ssFind s.stakeStats sym.code with
      | none => .error .cannotModifyEnd
      | some _ =>
        match accFind s.accounts frm sym.code with
        | none => .error .noBalanceObject
        | some _ =>
          .ok { s with
            unstakingLogs := ulErase s.unstakingLogs sym.code frm,
            stakeStats := ssMod s.stakeStats sym.code
              (fun r => { r with unstaking := { r.unstaking with amount := r.unstaking.amount - ul.asset.amount } }),
            accounts := accMod s.accounts frm sym.code
              (fun a => { a with stakeBalance := { a.stakeBalance with amount := a.stakeBalance.amount - ul.asset.amount } }) }

/-- ACTION setsstatus (uint8_t parameter, hence mod 256). -/
def setsstatus (n : Nat) (auth : List Nat) (s : State) : Except Err State :=
  set_config cfgSStatus (natToBytes (n % 256)) auth s

/-- ACTION setistatus. -/
def setistatus (n : Nat) (auth : List Nat) (s : State) : Except Err State :=
  set_config cfgIStatus (natToBytes (n % 256)) auth s

/-- ACTION settstatus. -/
def settstatus (n : Nat) (auth : List Nat) (s : State) : Except Err State :=
  set_config cfgTStatus (natToBytes (n % 256)) auth s

/-- ACTION setust (uint8_t new_time_second). -/
def setust (n : Nat) (auth : List Nat) (s : State) : Except Err State :=
  set_config cfgUnstakeTime (natToBytes (n % 256)) auth s

/-- Modelled from the spec: the repository's source has no supply-cap-raise
action (it is absent from the ACTION list and the dispatch table); spec
section 4.2 defines `raise_cap(issuer, new_max_supply)`: requires caller =
issuer; fails with BelowCurrentSupply if new_max_supply < supply; pure
metadata update (only max_supply changes). -/
def raise_cap (issuer : Nat) (new_max_supply : Asset) (auth : List Nat) (s : State) :
    Except Err State :=
  match stFind s.stats new_max_supply.sym.code with
  | none => .error .tokenNotExist
  | some st =>
    if ¬ (issuer == st.issuer && auth.contains issuer) then .error .missingAuthority
    else if new_max_supply.amount < st.supply.amount then .error .belowCurrentSupply
    else
      let sts := stMod s.stats new_max_supply.sym.code (fun r => { r with maxSupply := new_max_supply })
      .ok { s with stats := sts }

end ACCToken

namespace ACCToken

/- ---------------------------------------------------------------------
Sums over one scope of a (scope, row) table.
--------------------------------------------------------------------- -/

def sumBy {β : Type} (code : Nat) (amt : β → Int) (l : List (Nat × β)) : Int :=
  ((l.filter (fun e => e.1 == code)).map (fun e => amt e.2)).sum

/- ---------------------------------------------------------------------
Observed values and per-scope sums used by the staking invariants.
--------------------------------------------------------------------- -/

/-- StakeStat.staking for a symbol code (0 when no row exists). -/
def stakingVal (l : List (Nat × StakeStatsRow)) (code : Nat) : Int :=
  match ssFind l code with
  | none => 0
  | some r => r.staking.amount

/-- StakeStat.unstaking for a symbol code (0 when no row exists). -/
def unstakingVal (l : List (Nat × StakeStatsRow)) (code : Nat) : Int :=
  match ssFind l code with
  | none => 0
  | some r => r.unstaking.amount

/-- StakeLogEntry amount of an account under a symbol code (0 when absent). -/
def slAmt (l : List (Nat × StakingLogRow)) (code user : Nat) : Int :=
  match slFind l code user with
  | none => 0
  | some r => r.asset.amount

/-- UnstakeLogEntry amount of an account under a symbol code (0 when absent). -/
def ulAmt (l : List (Nat × UnstakingLogRow)) (code user : Nat) : Int :=
  match ulFind l code user with
  | none => 0
  | some r => r.asset.amount

/-- Account.stake_balance of an (owner, symbol code) (0 when the row is absent). -/
def stakeBalVal (l : List (Nat × AccountRow)) (owner code : Nat) : Int :=
  match accFind l owner code with
  | none => 0
  | some a => a.stakeBalance.amount

/-- Sum of all StakeLogEntry amounts recorded under a symbol code. -/
def sumSL (l : List (Nat × StakingLogRow)) (code : Nat) : Int :=
  sumBy code (fun r => r.asset.amount) l

/-- Sum of all UnstakeLogEntry amounts recorded under a symbol code. -/
def sumUL (l : List (Nat × UnstakingLogRow)) (code : Nat) : Int :=
  sumBy code (fun r => r.asset.amount) l

/-- The inductive invariant of the staking engine: key uniqueness of the two
log tables, ranges of the logged amounts, the per-symbol aggregate equations
(StakeStat.staking/unstaking against the log sums), and the per-account
decomposition of stake_balance into active plus in-flight stake. -/
structure Inv (s : State) : Prop where
  uniqSL : ∀ code user, s.stakingLogs.countP (slMatch code user) ≤ 1
  uniqUL : ∀ code user, s.unstakingLogs.countP (ulMatch code user) ≤ 1
  slRange : ∀ e ∈ s.stakingLogs, 0 ≤ e.2.asset.amount ∧ e.2.asset.amount ≤ maxAmount
  ulRange : ∀ e ∈ s.unstakingLogs, 0 ≤ e.2.asset.amount ∧ e.2.asset.amount ≤ maxAmount
  sbRange : ∀ e ∈ s.accounts, e.2.stakeBalance.amount ≤ maxAmount
  stakingEq : ∀ code, stakingVal s.stakeStats code = sumSL s.stakingLogs code
  unstakingEq : ∀ code, unstakingVal s.stakeStats code = sumUL s.unstakingLogs code
  decompEq : ∀ owner code,
    stakeBalVal s.accounts owner code =
      slAmt s.stakingLogs code owner + ulAmt s.unstakingLogs code owner

/-- One transition of the contract: some action, with some arguments and some
authorization, succeeds. -/
inductive Step : State → State → Prop where
  | initS {auth s s2} : init auth s = .ok s2 → Step s s2
  | createS {issuer m auth s s2} : create issuer m auth s = .ok s2 → Step s s2
  | issueS {dst q memo auth s s2} : issue dst q memo auth s = .ok s2 → Step s s2
  | transferS {frm dst q memo auth s s2} : transfer frm dst q memo auth s = .ok s2 → Step s s2
  | lockS {acct q auth s s2} : lock acct q auth s = .ok s2 → Step s s2
  | unlockS {acct q auth s s2} : unlock acct q auth s = .ok s2 → Step s s2
  | stakeS {frm q auth s s2} : stake frm q auth s = .ok s2 → Step s s2
  | unstakeS {frm q inst auth now s s2} : unstake frm q inst auth now s = .ok s2 → Step s s2
  | deferreleaseS {frm sym auth s s2} : deferrelease frm sym auth s = .ok s2 → Step s s2
  | setsstatusS {n auth s s2} : setsstatus n auth s = .ok s2 → Step s s2
  | setistatusS {n auth s s2} : setistatus n auth s = .ok s2 → Step s s2
  | settstatusS {n auth s s2} : settstatus n auth s = .ok s2 → Step s s2
  | setustS {n auth s s2} : setust n auth s = .ok s2 → Step s s2

/-- States reachable from an empty deployment (any host account registry). -/
inductive Reachable : State → Prop where
  | base (chain : List Nat) : Reachable (initialState chain)
  | step {s s2} : Reachable s → Step s s2 → Reachable s2

/- ---------------------------------------------------------------------
A concrete deployment trace (used to instantiate the general theorems).
SYM is the symbol "SYM" (code 0x4D5953 = 5069139) with precision 4, so
an on-screen quantity of 100.0000 SYM is the raw amount 1000000.
Account 0 is the contract account (_self); 1 and 2 are token holders
registered on the chain.
--------------------------------------------------------------------- -/

deriving instance DecidableEq for Except

def runOk (r : Except Err State) (d : State) : State :=
  match r with
  | .ok s => s
  | .error _ => d

def symSYM : Symbol := ⟨5069139, 4⟩

def s0 : State := initialState [1, 2]

def w1 : State := runOk (init [SELF] s0) s0

def w2 : State := runOk (create 1 ⟨10000000, symSYM⟩ [SELF] w1) w1

def w3 : State := runOk (issue 1 ⟨5000000, symSYM⟩ [] [1] w2) w2

def w4 : State := runOk (stake 1 ⟨1000000, symSYM⟩ [1] w3) w3

def w5 : State := runOk (unstake 1 ⟨400000, symSYM⟩ 0 [1] 1000 w4) w4

def w6 : State := runOk (deferrelease 1 symSYM [SELF] w5) w5

def wBug : State := runOk (lock 1 ⟨-1, symSYM⟩ [SELF] w3) w3

def wC6 : State := runOk (issue 2 ⟨1000000, symSYM⟩ [] [1] w3) w3

def wUst : State := runOk (setust 300 [SELF] w1) w1

/-- wC8: on top of wC6 (issuer holds 500.0000 SYM, bob 100.0000), the
issuer stakes 100.0000, so a StakeStat row with a nonzero staking baseline
exists while bob has no staking-log entry. -/
def wC8 : State := runOk (stake 1 ⟨1000000, symSYM⟩ [1] wC6) wC6

/-- The per-row balance well-formedness the spec asserts after every mutating
operation: balance is at least lock_balance + stake_balance, itself at
least zero. -/
def balanceInv (s : State) : Prop :=
  ∀ e ∈ s.accounts,
    0 ≤ e.2.lockBalance.amount + e.2.stakeBalance.amount ∧
    e.2.lockBalance.amount + e.2.stakeBalance.amount ≤ e.2.balance.amount

def sC7 : State := { configs := initConfigs [], stats := [⟨⟨1000000, symSYM⟩, ⟨10000000, symSYM⟩, 1⟩], accounts := [(1, ⟨⟨1000000, symSYM⟩, ⟨300000, symSYM⟩, ⟨600000, symSYM⟩⟩)], stakeStats := [], stakingLogs := [], unstakingLogs := [], chainAccounts := [1, 2] }

end ACCToken

namespace ACCToken

/- ---------------------------------------------------------------------
Generic lemmas about the first-match table operations.
--------------------------------------------------------------------- -/

section TableLemmas

variable {α : Type}

theorem find?_modifyFirst_self (p : α → Bool) (f : α → α)
    (hf : ∀ a, p a = true → p (f a) = true) :
    ∀ l : List α, (modifyFirst p f l).find? p = (l.find? p).map f := by
  intro l
  induction l with
  | nil => rfl
  | cons x xs ih =>
    by_cases hx : p x
    · simp only [modifyFirst, if_pos hx]
      rw [List.find?_cons_of_pos _ (hf x hx), List.find?_cons_of_pos _ hx]
      rfl
    · simp only [modifyFirst, if_neg hx]
      rw [List.find?_cons_of_neg _ (by simpa using hx), List.find?_cons_of_neg _ (by simpa using hx)]
      exact ih

theorem find?_modifyFirst_disj (p q : α → Bool) (f : α → α)
    (hd : ∀ a, q a = true → p a = false) (hq : ∀ a, p a = true → q (f a) = q a) :
    ∀ l : List α, (modifyFirst p f l).find? q = l.find? q := by
  intro l
  induction l with
  | nil => rfl
  | cons x xs ih =>
    by_cases hx : p x
    · have hqx : q x = false := by
        cases hqx : q x with
        | false => rfl
        | true => rw [hd x hqx] at hx; exact absurd hx (by simp)
      simp only [modifyFirst, if_pos hx]
      rw [List.find?_cons_of_neg _ (by simp [hq x hx, hqx]),
          List.find?_cons_of_neg _ (by simp [hqx])]
    · simp only [modifyFirst, if_neg hx]
      cases hqx : q x with
      | true => rw [List.find?_cons_of_pos _ hqx, List.find?_cons_of_pos _ hqx]
      | false =>
        rw [List.find?_cons_of_neg _ (by simp [hqx]), List.find?_cons_of_neg _ (by simp [hqx])]
        exact ih

theorem find?_eraseFirst_disj (p q : α → Bool) (hd : ∀ a, q a = true → p a = false) :
    ∀ l : List α, (eraseFirst p l).find? q = l.find? q := by
  intro l
  induction l with
  | nil => rfl
  | cons x xs ih =>
    by_cases hx : p x
    · have hqx : q x = false := by
        cases hqx : q x with
        | false => rfl
        | true => rw [hd x hqx] at hx; exact absurd hx (by simp)
      simp only [eraseFirst, if_pos hx]
      rw [List.find?_cons_of_neg _ (by simp [hqx])]
    · simp only [eraseFirst, if_neg hx]
      cases hqx : q x with
      | true => rw [List.find?_cons_of_pos _ hqx, List.find?_cons_of_pos _ hqx]
      | false =>
        rw [List.find?_cons_of_neg _ (by simp [hqx]), List.find?_cons_of_neg _ (by simp [hqx])]
        exact ih

theorem find?_eraseFirst_self (p : α → Bool) :
    ∀ l : List α, l.countP p ≤ 1 → (eraseFirst p l).find? p = none := by
  intro l
  induction l with
  | nil => intro _; rfl
  | cons x xs ih =>
    intro hc
    by_cases hx : p x
    · simp only [eraseFirst, if_pos hx]
      rw [List.countP_cons_of_pos _ _ hx] at hc
      have hzero : xs.countP p = 0 := by omega
      rw [List.find?_eq_none]
      intro a ha
      have := List.countP_eq_zero.mp hzero a ha
      simpa using this
    · simp only [eraseFirst, if_neg hx]
      rw [List.find?_cons_of_neg _ (by simpa using hx)]
      rw [List.countP_cons_of_neg _ _ (by simpa using hx)] at hc
      exact ih hc

theorem countP_modifyFirst (p q : α → Bool) (f : α → α)
    (hq : ∀ a, p a = true → q (f a) = q a) :
    ∀ l : List α, (modifyFirst p f l).countP q = l.countP q := by
  intro l
  induction l with
  | nil => rfl
  | cons x xs ih =>
    by_cases hx : p x
    · simp only [modifyFirst, if_pos hx]
      rw [List.countP_cons, List.countP_cons, hq x hx]
    · simp only [modifyFirst, if_neg hx]
      rw [List.countP_cons, List.countP_cons, ih]

theorem eraseFirst_sublist (p : α → Bool) : ∀ l : List α, (eraseFirst p l).Sublist l := by
  intro l
  induction l with
  | nil => exact List.Sublist.refl []
  | cons x xs ih =>
    by_cases hx : p x
    · simp only [eraseFirst, if_pos hx]
      exact List.sublist_cons_self x xs
    · simp only [eraseFirst, if_neg hx]
      exact List.Sublist.cons₂ x ih

theorem countP_eraseFirst_le (p q : α → Bool) (l : List α) :
    (eraseFirst p l).countP q ≤ l.countP q :=
  List.Sublist.countP_le q (eraseFirst_sublist p l)

theorem mem_modifyFirst {y : α} (p : α → Bool) (f : α → α) :
    ∀ l : List α, y ∈ modifyFirst p f l → y ∈ l ∨ ∃ x, x ∈ l ∧ p x = true ∧ y = f x := by
  intro l
  induction l with
  | nil => intro h; exact absurd h (by simp [modifyFirst])
  | cons x xs ih =>
    intro h
    by_cases hx : p x
    · simp only [modifyFirst, if_pos hx, List.mem_cons] at h
      rcases h with h | h
      · exact Or.inr ⟨x, by simp, hx, h⟩
      · exact Or.inl (List.mem_cons_of_mem x h)
    · simp only [modifyFirst, if_neg hx, List.mem_cons] at h
      rcases h with h | h
      · exact Or.inl (by simp [h])
      · rcases ih h with h2 | ⟨z, hz, hpz, hyz⟩
        · exact Or.inl (List.mem_cons_of_mem x h2)
        · exact Or.inr ⟨z, List.mem_cons_of_mem x hz, hpz, hyz⟩

theorem mem_eraseFirst {y : α} (p : α → Bool) (l : List α) (h : y ∈ eraseFirst p l) : y ∈ l :=
  List.Sublist.mem h (eraseFirst_sublist p l)

theorem countP_eq_zero_of_find?_eq_none (p : α → Bool) (l : List α)
    (h : l.find? p = none) : l.countP p = 0 := by
  rw [List.countP_eq_zero]
  intro a ha
  have := List.find?_eq_none.mp h a ha
  simpa using this

end TableLemmas


section SumLemmas

variable {β : Type}

theorem sumBy_nil (code : Nat) (amt : β → Int) : sumBy code amt ([] : List (Nat × β)) = 0 := rfl

theorem sumBy_cons (code : Nat) (amt : β → Int) (e : Nat × β) (l : List (Nat × β)) :
    sumBy code amt (e :: l) = (if e.1 == code then amt e.2 else 0) + sumBy code amt l := by
  by_cases hc : e.1 = code
  · simp [sumBy, List.filter_cons, hc]
  · simp [sumBy, List.filter_cons, hc]

theorem sumBy_modifyFirst (code : Nat) (amt : β → Int) (p : Nat × β → Bool)
    (f : Nat × β → Nat × β) (hp : ∀ a, p a = true → a.1 = code) (hf : ∀ a, (f a).1 = a.1)
    (e : Nat × β) :
    ∀ l : List (Nat × β), l.find? p = some e →
      sumBy code amt (modifyFirst p f l) = sumBy code amt l - amt e.2 + amt (f e).2 := by
  intro l
  induction l with
  | nil => intro h; exact absurd h (by simp)
  | cons x xs ih =>
    intro h
    by_cases hx : p x
    · rw [List.find?_cons_of_pos _ hx] at h
      injection h with h
      subst h
      simp only [modifyFirst, if_pos hx]
      rw [sumBy_cons, sumBy_cons]
      have h1 : x.1 = code := hp _ hx
      have h2 : (f x).1 = code := by rw [hf]; exact h1
      rw [if_pos (by simpa using h2), if_pos (by simpa using h1)]
      ring
    · rw [List.find?_cons_of_neg _ (by simpa using hx)] at h
      simp only [modifyFirst, if_neg hx]
      rw [sumBy_cons, sumBy_cons, ih h]
      ring

theorem sumBy_modifyFirst_ne (code code2 : Nat) (amt : β → Int) (p : Nat × β → Bool)
    (f : Nat × β → Nat × β) (hp : ∀ a, p a = true → a.1 = code) (hf : ∀ a, (f a).1 = a.1)
    (hne : code2 ≠ code) :
    ∀ l : List (Nat × β), sumBy code2 amt (modifyFirst p f l) = sumBy code2 amt l := by
  intro l
  induction l with
  | nil => rfl
  | cons x xs ih =>
    by_cases hx : p x
    · simp only [modifyFirst, if_pos hx]
      rw [sumBy_cons, sumBy_cons]
      have h1 : x.1 = code := hp _ hx
      have h2 : (f x).1 = code := by rw [hf]; exact h1
      rw [if_neg (by simp [h2]; exact fun hh => hne hh.symm),
          if_neg (by simp [h1]; exact fun hh => hne hh.symm)]
    · simp only [modifyFirst, if_neg hx]
      rw [sumBy_cons, sumBy_cons, ih]

theorem sumBy_eraseFirst (code : Nat) (amt : β → Int) (p : Nat × β → Bool)
    (hp : ∀ a, p a = true → a.1 = code) (e : Nat × β) :
    ∀ l : List (Nat × β), l.find? p = some e →
      sumBy code amt (eraseFirst p l) = sumBy code amt l - amt e.2 := by
  intro l
  induction l with
  | nil => intro h; exact absurd h (by simp)
  | cons x xs ih =>
    intro h
    by_cases hx : p x
    · rw [List.find?_cons_of_pos _ hx] at h
      injection h with h
      subst h
      simp only [eraseFirst, if_pos hx]
      rw [sumBy_cons]
      have h1 : x.1 = code := hp _ hx
      rw [if_pos (by simpa using h1)]
      ring
    · rw [List.find?_cons_of_neg _ (by simpa using hx)] at h
      simp only [eraseFirst, if_neg hx]
      rw [sumBy_cons, sumBy_cons, ih h]
      ring

theorem sumBy_eraseFirst_ne (code code2 : Nat) (amt : β → Int) (p : Nat × β → Bool)
    (hp : ∀ a, p a = true → a.1 = code) (hne : code2 ≠ code) :
    ∀ l : List (Nat × β), sumBy code2 amt (eraseFirst p l) = sumBy code2 amt l := by
  intro l
  induction l with
  | nil => rfl
  | cons x xs ih =>
    by_cases hx : p x
    · simp only [eraseFirst, if_pos hx]
      have h1 : x.1 = code := hp _ hx
      rw [sumBy_cons, if_neg (by simp [h1]; exact fun hh => hne hh.symm)]
      ring
    · simp only [eraseFirst, if_neg hx]
      rw [sumBy_cons, sumBy_cons, ih]

end SumLemmas

end ACCToken

namespace ACCToken


/- ---------------------------------------------------------------------
Disjointness of the key predicates (different keys never match one entry).
--------------------------------------------------------------------- -/

theorem slMatch_disj {code user code2 user2 : Nat} (h : ¬(code = code2 ∧ user = user2)) :
    ∀ e, slMatch code2 user2 e = true → slMatch code user e = false := by
  intro e he
  rw [Bool.eq_false_iff]
  intro he2
  simp only [slMatch, Bool.and_eq_true, beq_iff_eq] at he he2
  exact h ⟨by omega, by omega⟩

theorem ulMatch_disj {code user code2 user2 : Nat} (h : ¬(code = code2 ∧ user = user2)) :
    ∀ e, ulMatch code2 user2 e = true → ulMatch code user e = false := by
  intro e he
  rw [Bool.eq_false_iff]
  intro he2
  simp only [ulMatch, Bool.and_eq_true, beq_iff_eq] at he he2
  exact h ⟨by omega, by omega⟩

theorem accMatch_disj {owner code owner2 code2 : Nat} (h : ¬(owner = owner2 ∧ code = code2)) :
    ∀ e, accMatch owner2 code2 e = true → accMatch owner code e = false := by
  intro e he
  rw [Bool.eq_false_iff]
  intro he2
  simp only [accMatch, Bool.and_eq_true, beq_iff_eq] at he he2
  exact h ⟨by omega, by omega⟩

theorem ssMatch_disj {code code2 : Nat} (h : ¬ code = code2) :
    ∀ e, ssMatch code2 e = true → ssMatch code e = false := by
  intro e he
  rw [Bool.eq_false_iff]
  intro he2
  simp only [ssMatch, Bool.and_eq_true, beq_iff_eq] at he he2
  exact h (by omega)

theorem cfgMatch_disj {k k2 : Nat} (h : ¬ k = k2) :
    ∀ e, cfgMatch k2 e = true → cfgMatch k e = false := by
  intro e he
  rw [Bool.eq_false_iff]
  intro he2
  simp only [cfgMatch, beq_iff_eq] at he he2
  exact h (by omega)

/-- Rebuild the invariant when none of the four core tables changed. -/
theorem inv_of_core_eq {s s2 : State} (hs : Inv s)
    (h1 : s2.stakingLogs = s.stakingLogs) (h2 : s2.unstakingLogs = s.unstakingLogs)
    (h3 : s2.stakeStats = s.stakeStats) (h4 : s2.accounts = s.accounts) : Inv s2 := by
  refine ⟨?_, ?_, ?_, ?_, ?_, ?_, ?_, ?_⟩
  · rw [h1]; exact hs.uniqSL
  · rw [h2]; exact hs.uniqUL
  · rw [h1]; exact hs.slRange
  · rw [h2]; exact hs.ulRange
  · rw [h4]; exact hs.sbRange
  · rw [h3, h1]; exact hs.stakingEq
  · rw [h3, h2]; exact hs.unstakingEq
  · rw [h4, h1, h2]; exact hs.decompEq

end ACCToken

namespace ACCToken

/- ---------------------------------------------------------------------
Specialized find/modify/erase lemmas for each table.
--------------------------------------------------------------------- -/

theorem find?_eq_of_mem_of_countP_le_one {α : Type} (p : α → Bool) :
    ∀ l : List α, l.countP p ≤ 1 → ∀ x ∈ l, p x = true → l.find? p = some x := by
  intro l
  induction l with
  | nil => intro _ x hx; exact absurd hx (by simp)
  | cons y ys ih =>
    intro hc x hx hpx
    rcases List.mem_cons.mp hx with rfl | hx2
    · rw [List.find?_cons_of_pos _ hpx]
    · by_cases hy : p y
      · rw [List.countP_cons_of_pos _ _ hy] at hc
        have hpos : 0 < ys.countP p := List.countP_pos_iff.mpr ⟨x, hx2, hpx⟩
        omega
      · rw [List.find?_cons_of_neg _ (by simpa using hy)]
        rw [List.countP_cons_of_neg _ _ (by simpa using hy)] at hc
        exact ih hc x hx2 hpx

theorem accFind_accMod_self (l : List (Nat × AccountRow)) (owner code : Nat)
    (f : AccountRow → AccountRow)
    (hcode : ∀ a : AccountRow, a.balance.sym.code = code → (f a).balance.sym.code = code) :
    accFind (accMod l owner code f) owner code = (accFind l owner code).map f := by
  unfold accFind accMod
  have hf : ∀ a : Nat × AccountRow,
      accMatch owner code a = true → accMatch owner code (a.1, f a.2) = true := by
    intro a ha
    simp only [accMatch, Bool.and_eq_true, beq_iff_eq] at ha ⊢
    exact ⟨ha.1, hcode a.2 ha.2⟩
  rw [find?_modifyFirst_self (accMatch owner code) _ hf]
  cases l.find? (accMatch owner code) <;> rfl

theorem accFind_accMod_other (l : List (Nat × AccountRow)) (owner code : Nat)
    (f : AccountRow → AccountRow) (o c : Nat) (hk : ¬(owner = o ∧ code = c))
    (hcode : ∀ a : AccountRow, a.balance.sym.code = code → (f a).balance.sym.code = code) :
    accFind (accMod l owner code f) o c = accFind l o c := by
  unfold accFind accMod
  have hq : ∀ a : Nat × AccountRow,
      accMatch owner code a = true → accMatch o c (a.1, f a.2) = accMatch o c a := by
    intro a ha
    simp only [accMatch, Bool.and_eq_true, beq_iff_eq] at ha
    simp only [accMatch]
    rw [hcode a.2 ha.2, ha.2]
  rw [find?_modifyFirst_disj (accMatch owner code) (accMatch o c) _ (accMatch_disj hk) hq]

theorem ssFind_ssMod_self (l : List (Nat × StakeStatsRow)) (code : Nat)
    (f : StakeStatsRow → StakeStatsRow)
    (hsym : ∀ r, (f r).staking.sym.code = r.staking.sym.code) :
    ssFind (ssMod l code f) code = (ssFind l code).map f := by
  unfold ssFind ssMod
  have hf : ∀ a : Nat × StakeStatsRow,
      ssMatch code a = true → ssMatch code (a.1, f a.2) = true := by
    intro a ha
    simp only [ssMatch, Bool.and_eq_true, beq_iff_eq] at ha ⊢
    exact ⟨ha.1, by rw [hsym]; exact ha.2⟩
  rw [find?_modifyFirst_self (ssMatch code) _ hf]
  cases l.find? (ssMatch code) <;> rfl

theorem ssFind_ssMod_other (l : List (Nat × StakeStatsRow)) (code : Nat)
    (f : StakeStatsRow → StakeStatsRow) (c : Nat) (hk : ¬ code = c)
    (hsym : ∀ r, (f r).staking.sym.code = r.staking.sym.code) :
    ssFind (ssMod l code f) c = ssFind l c := by
  unfold ssFind ssMod
  have hq : ∀ a : Nat × StakeStatsRow,
      ssMatch code a = true → ssMatch c (a.1, f a.2) = ssMatch c a := by
    intro a ha
    simp only [ssMatch]
    rw [hsym a.2]
  rw [find?_modifyFirst_disj (ssMatch code) (ssMatch c) _ (ssMatch_disj hk) hq]

theorem slFind_slMod_self (l : List (Nat × StakingLogRow)) (code user : Nat)
    (f : StakingLogRow → StakingLogRow) (huser : ∀ r, (f r).user = r.user) :
    slFind (slMod l code user f) code user = (slFind l code user).map f := by
  unfold slFind slMod
  have hf : ∀ a : Nat × StakingLogRow,
      slMatch code user a = true → slMatch code user (a.1, f a.2) = true := by
    intro a ha
    simp only [slMatch, Bool.and_eq_true, beq_iff_eq] at ha ⊢
    exact ⟨ha.1, by rw [huser]; exact ha.2⟩
  rw [find?_modifyFirst_self (slMatch code user) _ hf]
  cases l.find? (slMatch code user) <;> rfl

theorem slFind_slMod_other (l : List (Nat × StakingLogRow)) (code user : Nat)
    (f : StakingLogRow → StakingLogRow) (c u : Nat) (hk : ¬(code = c ∧ user = u))
    (huser : ∀ r, (f r).user = r.user) :
    slFind (slMod l code user f) c u = slFind l c u := by
  unfold slFind slMod
  have hq : ∀ a : Nat × StakingLogRow,
      slMatch code user a = true → slMatch c u (a.1, f a.2) = slMatch c u a := by
    intro a ha
    simp only [slMatch]
    rw [huser a.2]
  rw [find?_modifyFirst_disj (slMatch code user) (slMatch c u) _ (slMatch_disj hk) hq]

theorem slFind_slErase_self (l : List (Nat × StakingLogRow)) (code user : Nat)
    (hu : l.countP (slMatch code user) ≤ 1) :
    slFind (slErase l code user) code user = none := by
  unfold slFind slErase
  rw [find?_eraseFirst_self (slMatch code user) l hu]
  rfl

theorem slFind_slErase_other (l : List (Nat × StakingLogRow)) (code user : Nat)
    (c u : Nat) (hk : ¬(code = c ∧ user = u)) :
    slFind (slErase l code user) c u = slFind l c u := by
  unfold slFind slErase
  rw [find?_eraseFirst_disj (slMatch code user) (slMatch c u) (slMatch_disj hk)]

theorem ulFind_ulMod_self (l : List (Nat × UnstakingLogRow)) (code user : Nat)
    (f : UnstakingLogRow → UnstakingLogRow) (huser : ∀ r, (f r).user = r.user) :
    ulFind (ulMod l code user f) code user = (ulFind l code user).map f := by
  unfold ulFind ulMod
  have hf : ∀ a : Nat × UnstakingLogRow,
      ulMatch code user a = true → ulMatch code user (a.1, f a.2) = true := by
    intro a ha
    simp only [ulMatch, Bool.and_eq_true, beq_iff_eq] at ha ⊢
    exact ⟨ha.1, by rw [huser]; exact ha.2⟩
  rw [find?_modifyFirst_self (ulMatch code user) _ hf]
  cases l.find? (ulMatch code user) <;> rfl

theorem ulFind_ulMod_other (l : List (Nat × UnstakingLogRow)) (code user : Nat)
    (f : UnstakingLogRow → UnstakingLogRow) (c u : Nat) (hk : ¬(code = c ∧ user = u))
    (huser : ∀ r, (f r).user = r.user) :
    ulFind (ulMod l code user f) c u = ulFind l c u := by
  unfold ulFind ulMod
  have hq : ∀ a : Nat × UnstakingLogRow,
      ulMatch code user a = true → ulMatch c u (a.1, f a.2) = ulMatch c u a := by
    intro a ha
    simp only [ulMatch]
    rw [huser a.2]
  rw [find?_modifyFirst_disj (ulMatch code user) (ulMatch c u) _ (ulMatch_disj hk) hq]

theorem ulFind_ulErase_self (l : List (Nat × UnstakingLogRow)) (code user : Nat)
    (hu : l.countP (ulMatch code user) ≤ 1) :
    ulFind (ulErase l code user) code user = none := by
  unfold ulFind ulErase
  rw [find?_eraseFirst_self (ulMatch code user) l hu]
  rfl

theorem ulFind_ulErase_other (l : List (Nat × UnstakingLogRow)) (code user : Nat)
    (c u : Nat) (hk : ¬(code = c ∧ user = u)) :
    ulFind (ulErase l code user) c u = ulFind l c u := by
  unfold ulFind ulErase
  rw [find?_eraseFirst_disj (ulMatch code user) (ulMatch c u) (ulMatch_disj hk)]

/- find? on a freshly consed entry. -/

theorem accFind_cons_self (l : List (Nat × AccountRow)) (o : Nat) (row : AccountRow) :
    accFind ((o, row) :: l) o row.balance.sym.code = some row := by
  unfold accFind
  rw [List.find?_cons_of_pos _ (by simp [accMatch])]
  rfl

theorem accFind_cons_other (l : List (Nat × AccountRow)) (o : Nat) (row : AccountRow)
    (o2 c2 : Nat) (hk : ¬(o = o2 ∧ row.balance.sym.code = c2)) :
    accFind ((o, row) :: l) o2 c2 = accFind l o2 c2 := by
  unfold accFind
  rw [List.find?_cons_of_neg]
  intro hcon
  simp only [accMatch, Bool.and_eq_true, beq_iff_eq] at hcon
  exact hk ⟨by omega, by omega⟩

theorem slFind_cons_self (l : List (Nat × StakingLogRow)) (c : Nat) (row : StakingLogRow) :
    slFind ((c, row) :: l) c row.user = some row := by
  unfold slFind
  rw [List.find?_cons_of_pos _ (by simp [slMatch])]
  rfl

theorem slFind_cons_other (l : List (Nat × StakingLogRow)) (c : Nat) (row : StakingLogRow)
    (c2 u2 : Nat) (hk : ¬(c = c2 ∧ row.user = u2)) :
    slFind ((c, row) :: l) c2 u2 = slFind l c2 u2 := by
  unfold slFind
  rw [List.find?_cons_of_neg]
  intro hcon
  simp only [slMatch, Bool.and_eq_true, beq_iff_eq] at hcon
  exact hk ⟨by omega, by omega⟩

theorem ulFind_cons_self (l : List (Nat × UnstakingLogRow)) (c : Nat) (row : UnstakingLogRow) :
    ulFind ((c, row) :: l) c row.user = some row := by
  unfold ulFind
  rw [List.find?_cons_of_pos _ (by simp [ulMatch])]
  rfl

theorem ulFind_cons_other (l : List (Nat × UnstakingLogRow)) (c : Nat) (row : UnstakingLogRow)
    (c2 u2 : Nat) (hk : ¬(c = c2 ∧ row.user = u2)) :
    ulFind ((c, row) :: l) c2 u2 = ulFind l c2 u2 := by
  unfold ulFind
  rw [List.find?_cons_of_neg]
  intro hcon
  simp only [ulMatch, Bool.and_eq_true, beq_iff_eq] at hcon
  exact hk ⟨by omega, by omega⟩

theorem ssFind_cons_self (l : List (Nat × StakeStatsRow)) (c : Nat) (row : StakeStatsRow)
    (hc : row.staking.sym.code = c) :
    ssFind ((c, row) :: l) c = some row := by
  unfold ssFind
  rw [List.find?_cons_of_pos _ (by simp [ssMatch, hc])]
  rfl

theorem ssFind_cons_other (l : List (Nat × StakeStatsRow)) (c : Nat) (row : StakeStatsRow)
    (c2 : Nat) (hk : ¬ c = c2) :
    ssFind ((c, row) :: l) c2 = ssFind l c2 := by
  unfold ssFind
  rw [List.find?_cons_of_neg]
  intro hcon
  simp only [ssMatch, Bool.and_eq_true, beq_iff_eq] at hcon
  exact hk (by omega)

/- Sums after each table operation. -/

theorem sumSL_cons (code c : Nat) (row : StakingLogRow) (l : List (Nat × StakingLogRow)) :
    sumSL ((c, row) :: l) code = (if c == code then row.asset.amount else 0) + sumSL l code :=
  sumBy_cons code _ (c, row) l

theorem sumUL_cons (code c : Nat) (row : UnstakingLogRow) (l : List (Nat × UnstakingLogRow)) :
    sumUL ((c, row) :: l) code = (if c == code then row.asset.amount else 0) + sumUL l code :=
  sumBy_cons code _ (c, row) l

theorem slMatch_fst {code user : Nat} : ∀ a, slMatch code user a = true → a.1 = code := by
  intro a ha
  simp only [slMatch, Bool.and_eq_true, beq_iff_eq] at ha
  exact ha.1

theorem ulMatch_fst {code user : Nat} : ∀ a, ulMatch code user a = true → a.1 = code := by
  intro a ha
  simp only [ulMatch, Bool.and_eq_true, beq_iff_eq] at ha
  exact ha.1

theorem sumSL_slMod (l : List (Nat × StakingLogRow)) (code user : Nat)
    (f : StakingLogRow → StakingLogRow) (e : StakingLogRow)
    (h : slFind l code user = some e) :
    sumSL (slMod l code user f) code = sumSL l code - e.asset.amount + (f e).asset.amount := by
  unfold slFind at h
  cases hfp : l.find? (slMatch code user) with
  | none => rw [hfp] at h; exact absurd h (by simp)
  | some pr =>
    rw [hfp] at h
    injection h with h
    unfold sumSL slMod
    have hmain := sumBy_modifyFirst code (fun r : StakingLogRow => r.asset.amount)
      (slMatch code user) (fun e2 => (e2.1, f e2.2)) slMatch_fst (fun a => rfl) pr l hfp
    rw [hmain]
    have h2 : pr.2 = e := h
    simp [h2]

theorem sumSL_slMod_ne (l : List (Nat × StakingLogRow)) (code user c2 : Nat)
    (f : StakingLogRow → StakingLogRow) (hne : c2 ≠ code) :
    sumSL (slMod l code user f) c2 = sumSL l c2 := by
  unfold sumSL slMod
  exact sumBy_modifyFirst_ne code c2 _ (slMatch code user) (fun e2 => (e2.1, f e2.2)) slMatch_fst (fun a => rfl) hne l

theorem sumSL_slErase (l : List (Nat × StakingLogRow)) (code user : Nat) (e : StakingLogRow)
    (h : slFind l code user = some e) :
    sumSL (slErase l code user) code = sumSL l code - e.asset.amount := by
  unfold slFind at h
  cases hfp : l.find? (slMatch code user) with
  | none => rw [hfp] at h; exact absurd h (by simp)
  | some pr =>
    rw [hfp] at h
    injection h with h
    unfold sumSL slErase
    have hmain := sumBy_eraseFirst code (fun r : StakingLogRow => r.asset.amount)
      (slMatch code user) slMatch_fst pr l hfp
    rw [hmain]
    have h2 : pr.2 = e := h
    simp [h2]

theorem sumSL_slErase_ne (l : List (Nat × StakingLogRow)) (code user c2 : Nat) (hne : c2 ≠ code) :
    sumSL (slErase l code user) c2 = sumSL l c2 := by
  unfold sumSL slErase
  exact sumBy_eraseFirst_ne code c2 _ (slMatch code user) slMatch_fst hne l

theorem sumUL_ulMod (l : List (Nat × UnstakingLogRow)) (code user : Nat)
    (f : UnstakingLogRow → UnstakingLogRow) (e : UnstakingLogRow)
    (h : ulFind l code user = some e) :
    sumUL (ulMod l code user f) code = sumUL l code - e.asset.amount + (f e).asset.amount := by
  unfold ulFind at h
  cases hfp : l.find? (ulMatch code user) with
  | none => rw [hfp] at h; exact absurd h (by simp)
  | some pr =>
    rw [hfp] at h
    injection h with h
    unfold sumUL ulMod
    have hmain := sumBy_modifyFirst code (fun r : UnstakingLogRow => r.asset.amount)
      (ulMatch code user) (fun e2 => (e2.1, f e2.2)) ulMatch_fst (fun a => rfl) pr l hfp
    rw [hmain]
    have h2 : pr.2 = e := h
    simp [h2]

theorem sumUL_ulMod_ne (l : List (Nat × UnstakingLogRow)) (code user c2 : Nat)
    (f : UnstakingLogRow → UnstakingLogRow) (hne : c2 ≠ code) :
    sumUL (ulMod l code user f) c2 = sumUL l c2 := by
  unfold sumUL ulMod
  exact sumBy_modifyFirst_ne code c2 _ (ulMatch code user) (fun e2 => (e2.1, f e2.2)) ulMatch_fst (fun a => rfl) hne l

theorem sumUL_ulErase (l : List (Nat × UnstakingLogRow)) (code user : Nat) (e : UnstakingLogRow)
    (h : ulFind l code user = some e) :
    sumUL (ulErase l code user) code = sumUL l code - e.asset.amount := by
  unfold ulFind at h
  cases hfp : l.find? (ulMatch code user) with
  | none => rw [hfp] at h; exact absurd h (by simp)
  | some pr =>
    rw [hfp] at h
    injection h with h
    unfold sumUL ulErase
    have hmain := sumBy_eraseFirst code (fun r : UnstakingLogRow => r.asset.amount)
      (ulMatch code user) ulMatch_fst pr l hfp
    rw [hmain]
    have h2 : pr.2 = e := h
    simp [h2]

theorem sumUL_ulErase_ne (l : List (Nat × UnstakingLogRow)) (code user c2 : Nat) (hne : c2 ≠ code) :
    sumUL (ulErase l code user) c2 = sumUL l c2 := by
  unfold sumUL ulErase
  exact sumBy_eraseFirst_ne code c2 _ (ulMatch code user) ulMatch_fst hne l

/- Membership recovery from a find. -/

theorem slFind_mem (l : List (Nat × StakingLogRow)) (code user : Nat) (e : StakingLogRow)
    (h : slFind l code user = some e) : (code, e) ∈ l := by
  unfold slFind at h
  cases hfp : l.find? (slMatch code user) with
  | none => rw [hfp] at h; exact absurd h (by simp)
  | some pr =>
    rw [hfp] at h
    injection h with h
    have hmem := List.mem_of_find?_eq_some hfp
    have hp := List.find?_some hfp
    have h1 : pr.1 = code := slMatch_fst pr hp
    have : pr = (code, e) := by
      obtain ⟨a, b⟩ := pr
      simp only at h1 h
      rw [h1, h]
    rw [this] at hmem
    exact hmem

theorem ulFind_mem (l : List (Nat × UnstakingLogRow)) (code user : Nat) (e : UnstakingLogRow)
    (h : ulFind l code user = some e) : (code, e) ∈ l := by
  unfold ulFind at h
  cases hfp : l.find? (ulMatch code user) with
  | none => rw [hfp] at h; exact absurd h (by simp)
  | some pr =>
    rw [hfp] at h
    injection h with h
    have hmem := List.mem_of_find?_eq_some hfp
    have hp := List.find?_some hfp
    have h1 : pr.1 = code := ulMatch_fst pr hp
    have : pr = (code, e) := by
      obtain ⟨a, b⟩ := pr
      simp only at h1 h
      rw [h1, h]
    rw [this] at hmem
    exact hmem

theorem accFind_mem (l : List (Nat × AccountRow)) (owner code : Nat) (a : AccountRow)
    (h : accFind l owner code = some a) : (owner, a) ∈ l := by
  unfold accFind at h
  cases hfp : l.find? (accMatch owner code) with
  | none => rw [hfp] at h; exact absurd h (by simp)
  | some pr =>
    rw [hfp] at h
    injection h with h
    have hmem := List.mem_of_find?_eq_some hfp
    have hp := List.find?_some hfp
    have h1 : pr.1 = owner := by
      simp only [accMatch, Bool.and_eq_true, beq_iff_eq] at hp
      exact hp.1
    have : pr = (owner, a) := by
      obtain ⟨x, y⟩ := pr
      simp only at h1 h
      rw [h1, h]
    rw [this] at hmem
    exact hmem

end ACCToken

namespace ACCToken

/- ---------------------------------------------------------------------
Inversion of the checked asset operations and key facts of found rows.
--------------------------------------------------------------------- -/

theorem Asset.addChecked_ok {a b r : Asset} (h : Asset.addChecked a b = .ok r) :
    r.amount = a.amount + b.amount ∧ r.sym = a.sym ∧
      -maxAmount ≤ r.amount ∧ r.amount ≤ maxAmount ∧ a.sym = b.sym := by
  unfold Asset.addChecked at h
  split at h
  · exact Except.noConfusion h
  next hsym =>
    split at h
    · exact Except.noConfusion h
    · split at h
      · exact Except.noConfusion h
      next h2 =>
        injection h with h
        subst h
        refine ⟨rfl, rfl, ?_, ?_, not_not.mp hsym⟩ <;> simp only [] <;> omega

theorem Asset.subChecked_ok {a b r : Asset} (h : Asset.subChecked a b = .ok r) :
    r.amount = a.amount - b.amount ∧ r.sym = a.sym ∧
      -maxAmount ≤ r.amount ∧ r.amount ≤ maxAmount ∧ a.sym = b.sym := by
  unfold Asset.subChecked at h
  split at h
  · exact Except.noConfusion h
  next hsym =>
    split at h
    · exact Except.noConfusion h
    · split at h
      · exact Except.noConfusion h
      next h2 =>
        injection h with h
        subst h
        refine ⟨rfl, rfl, ?_, ?_, not_not.mp hsym⟩ <;> simp only [] <;> omega

theorem accFind_some_code {l : List (Nat × AccountRow)} {owner code : Nat} {a : AccountRow}
    (h : accFind l owner code = some a) : a.balance.sym.code = code := by
  unfold accFind at h
  cases hfp : l.find? (accMatch owner code) with
  | none => rw [hfp] at h; exact absurd h (by simp)
  | some pr =>
    rw [hfp] at h
    injection h with h
    have h2 : pr.2 = a := h
    have hp := List.find?_some hfp
    simp only [accMatch, Bool.and_eq_true, beq_iff_eq] at hp
    rw [← h2]
    exact hp.2

theorem slFind_some_user {l : List (Nat × StakingLogRow)} {code user : Nat} {r : StakingLogRow}
    (h : slFind l code user = some r) : r.user = user := by
  unfold slFind at h
  cases hfp : l.find? (slMatch code user) with
  | none => rw [hfp] at h; exact absurd h (by simp)
  | some pr =>
    rw [hfp] at h
    injection h with h
    have h2 : pr.2 = r := h
    have hp := List.find?_some hfp
    simp only [slMatch, Bool.and_eq_true, beq_iff_eq] at hp
    rw [← h2]
    exact hp.2

theorem ulFind_some_user {l : List (Nat × UnstakingLogRow)} {code user : Nat}
    {r : UnstakingLogRow} (h : ulFind l code user = some r) : r.user = user := by
  unfold ulFind at h
  cases hfp : l.find? (ulMatch code user) with
  | none => rw [hfp] at h; exact absurd h (by simp)
  | some pr =>
    rw [hfp] at h
    injection h with h
    have h2 : pr.2 = r := h
    have hp := List.find?_some hfp
    simp only [ulMatch, Bool.and_eq_true, beq_iff_eq] at hp
    rw [← h2]
    exact hp.2

end ACCToken

namespace ACCToken

/- ---------------------------------------------------------------------
Invariant preservation, action by action.
--------------------------------------------------------------------- -/

theorem inv_set_config {k : Nat} {v : List Nat} {auth : List Nat} {s s2 : State}
    (h : set_config k v auth s = .ok s2) (hs : Inv s) : Inv s2 := by
  unfold set_config at h
  split at h
  · injection h with h
    subst h
    exact inv_of_core_eq hs rfl rfl rfl rfl
  · exact Except.noConfusion h

theorem inv_init {auth : List Nat} {s s2 : State}
    (h : init auth s = .ok s2) (hs : Inv s) : Inv s2 := by
  unfold init at h
  split at h
  · exact Except.noConfusion h
  · split at h
    · injection h with h
      subst h
      exact inv_of_core_eq hs rfl rfl rfl rfl
    · exact Except.noConfusion h

theorem inv_create {issuer : Nat} {m : Asset} {auth : List Nat} {s s2 : State}
    (h : create issuer m auth s = .ok s2) (hs : Inv s) : Inv s2 := by
  unfold create at h
  split at h
  · exact Except.noConfusion h
  · split at h
    · exact Except.noConfusion h
    · split at h
      · exact Except.noConfusion h
      · split at h
        · exact Except.noConfusion h
        · split at h
          · exact Except.noConfusion h
          · injection h with h
            subst h
            exact inv_of_core_eq hs rfl rfl rfl rfl

theorem inv_setsstatus {n : Nat} {auth : List Nat} {s s2 : State}
    (h : setsstatus n auth s = .ok s2) (hs : Inv s) : Inv s2 := inv_set_config h hs

theorem inv_setistatus {n : Nat} {auth : List Nat} {s s2 : State}
    (h : setistatus n auth s = .ok s2) (hs : Inv s) : Inv s2 := inv_set_config h hs

theorem inv_settstatus {n : Nat} {auth : List Nat} {s s2 : State}
    (h : settstatus n auth s = .ok s2) (hs : Inv s) : Inv s2 := inv_set_config h hs

theorem inv_setust {n : Nat} {auth : List Nat} {s s2 : State}
    (h : setust n auth s = .ok s2) (hs : Inv s) : Inv s2 := inv_set_config h hs

/-- An accounts-table modification that keeps the key fields and the
stake_balance of the modified row preserves the invariant, provided nothing
else changed. -/
theorem inv_accMod_keepSB {s s2 : State} (owner code : Nat) (f : AccountRow → AccountRow)
    (h4 : s2.accounts = accMod s.accounts owner code f)
    (h1 : s2.stakingLogs = s.stakingLogs) (h2 : s2.unstakingLogs = s.unstakingLogs)
    (h3 : s2.stakeStats = s.stakeStats)
    (hsb : ∀ a, (f a).stakeBalance = a.stakeBalance)
    (hcode : ∀ a : AccountRow, a.balance.sym.code = code → (f a).balance.sym.code = code)
    (hs : Inv s) : Inv s2 := by
  refine ⟨?_, ?_, ?_, ?_, ?_, ?_, ?_, ?_⟩
  · rw [h1]; exact hs.uniqSL
  · rw [h2]; exact hs.uniqUL
  · rw [h1]; exact hs.slRange
  · rw [h2]; exact hs.ulRange
  · rw [h4]
    intro e he
    rcases mem_modifyFirst _ _ _ he with hmem | ⟨x, hx, hpx, heq⟩
    · exact hs.sbRange e hmem
    · subst heq
      have := hs.sbRange x hx
      simpa [hsb x.2] using this
  · rw [h3, h1]; exact hs.stakingEq
  · rw [h3, h2]; exact hs.unstakingEq
  · rw [h4, h1, h2]
    intro o c
    by_cases hk : owner = o ∧ code = c
    · obtain ⟨rfl, rfl⟩ := hk
      have hself := accFind_accMod_self s.accounts owner code f hcode
      unfold stakeBalVal
      rw [hself]
      have hd := hs.decompEq owner code
      unfold stakeBalVal at hd
      cases hfd : accFind s.accounts owner code with
      | none => rw [hfd] at hd; simpa using hd
      | some a =>
        rw [hfd] at hd
        simpa [hsb a] using hd
    · have hother := accFind_accMod_other s.accounts owner code f o c hk hcode
      unfold stakeBalVal
      rw [hother]
      exact hs.decompEq o c

/-- A fresh account row (created by add_balance) has stake_balance 0 and
preserves the invariant when no row with its key existed. -/
theorem inv_acc_cons {s s2 : State} {o : Nat} {row : AccountRow}
    (hrow : row.stakeBalance.amount = 0)
    (hnone : accFind s.accounts o row.balance.sym.code = none)
    (h4 : s2.accounts = (o, row) :: s.accounts)
    (h1 : s2.stakingLogs = s.stakingLogs) (h2 : s2.unstakingLogs = s.unstakingLogs)
    (h3 : s2.stakeStats = s.stakeStats) (hs : Inv s) : Inv s2 := by
  refine ⟨?_, ?_, ?_, ?_, ?_, ?_, ?_, ?_⟩
  · rw [h1]; exact hs.uniqSL
  · rw [h2]; exact hs.uniqUL
  · rw [h1]; exact hs.slRange
  · rw [h2]; exact hs.ulRange
  · rw [h4]
    intro e he
    rcases List.mem_cons.mp he with rfl | hmem
    · simp only [hrow]
      unfold maxAmount
      omega
    · exact hs.sbRange e hmem
  · rw [h3, h1]; exact hs.stakingEq
  · rw [h3, h2]; exact hs.unstakingEq
  · rw [h4, h1, h2]
    intro o2 c2
    by_cases hk : o = o2 ∧ row.balance.sym.code = c2
    · obtain ⟨rfl, rfl⟩ := hk
      unfold stakeBalVal
      rw [accFind_cons_self]
      have hd := hs.decompEq o row.balance.sym.code
      unfold stakeBalVal at hd
      rw [hnone] at hd
      have hd2 : (0 : Int) =
          slAmt s.stakingLogs row.balance.sym.code o +
            ulAmt s.unstakingLogs row.balance.sym.code o := hd
      show row.stakeBalance.amount = _
      rw [hrow]
      exact hd2
    · unfold stakeBalVal
      rw [accFind_cons_other _ _ _ _ _ hk]
      exact hs.decompEq o2 c2

theorem inv_add_balance {o : Nat} {v : Asset} {s s2 : State}
    (h : add_balance o v s = .ok s2) (hs : Inv s) : Inv s2 := by
  unfold add_balance at h
  split at h
  next hnone =>
    injection h with h
    subst h
    exact inv_acc_cons rfl hnone rfl rfl rfl rfl hs
  next dst hsome =>
    split at h
    · exact Except.noConfusion h
    next nb hnb =>
      injection h with h
      subst h
      have hnbcode : nb.sym.code = v.sym.code := by
        rw [(Asset.addChecked_ok hnb).2.1, accFind_some_code hsome]
      exact inv_accMod_keepSB o v.sym.code (fun a => { a with balance := nb })
        rfl rfl rfl rfl (fun a => rfl) (fun a ha => hnbcode) hs

theorem inv_sub_balance {o : Nat} {v : Asset} {s s2 : State}
    (h : sub_balance o v s = .ok s2) (hs : Inv s) : Inv s2 := by
  unfold sub_balance at h
  split at h
  · exact Except.noConfusion h
  next frm hsome =>
    split at h
    · exact Except.noConfusion h
    · split at h
      · exact Except.noConfusion h
      next nb hnb =>
        injection h with h
        subst h
        have hnbcode : nb.sym.code = v.sym.code := by
          rw [(Asset.subChecked_ok hnb).2.1, accFind_some_code hsome]
        exact inv_accMod_keepSB o v.sym.code (fun a => { a with balance := nb })
          rfl rfl rfl rfl (fun a => rfl) (fun a ha => hnbcode) hs

theorem inv_transfer {frm dst : Nat} {q : Asset} {memo : List Nat} {auth : List Nat}
    {s s2 : State} (h : transfer frm dst q memo auth s = .ok s2) (hs : Inv s) : Inv s2 := by
  unfold transfer at h
  split at h
  · exact Except.noConfusion h
  · split at h
    · exact Except.noConfusion h
    · split at h
      · exact Except.noConfusion h
      · split at h
        · exact Except.noConfusion h
        · split at h
          · exact Except.noConfusion h
          next st hst =>
            split at h
            · exact Except.noConfusion h
            · split at h
              · exact Except.noConfusion h
              · split at h
                · exact Except.noConfusion h
                · split at h
                  · exact Except.noConfusion h
                  · split at h
                    · exact Except.noConfusion h
                    next s1 hsub =>
                      exact inv_add_balance h (inv_sub_balance hsub hs)

theorem inv_issue {dst : Nat} {q : Asset} {memo : List Nat} {auth : List Nat}
    {s s2 : State} (h : issue dst q memo auth s = .ok s2) (hs : Inv s) : Inv s2 := by
  unfold issue at h
  split at h
  · exact Except.noConfusion h
  · split at h
    · exact Except.noConfusion h
    · split at h
      · exact Except.noConfusion h
      · split at h
        · exact Except.noConfusion h
        next st hst =>
          split at h
          · exact Except.noConfusion h
          · split at h
            · exact Except.noConfusion h
            · split at h
              · exact Except.noConfusion h
              · split at h
                · exact Except.noConfusion h
                · split at h
                  · exact Except.noConfusion h
                  · split at h
                    · exact Except.noConfusion h
                    next ns hns =>
                      split at h
                      · exact Except.noConfusion h
                      next s1 hadd =>
                        have hs1 : Inv s1 :=
                          inv_add_balance hadd (inv_of_core_eq hs rfl rfl rfl rfl)
                        split at h
                        · injection h with h
                          subst h
                          exact hs1
                        · exact inv_transfer h hs1

theorem inv_lock {acct : Nat} {q : Asset} {auth : List Nat} {s s2 : State}
    (h : lock acct q auth s = .ok s2) (hs : Inv s) : Inv s2 := by
  unfold lock at h
  split at h
  · exact Except.noConfusion h
  · split at h
    · exact Except.noConfusion h
    next l hsome =>
      split at h
      · exact Except.noConfusion h
      · split at h
        · exact Except.noConfusion h
        next nb hnb =>
          injection h with h
          subst h
          exact inv_accMod_keepSB acct q.sym.code (fun a => { a with lockBalance := nb })
            rfl rfl rfl rfl (fun a => rfl) (fun a ha => ha) hs

theorem inv_unlock {acct : Nat} {q : Asset} {auth : List Nat} {s s2 : State}
    (h : unlock acct q auth s = .ok s2) (hs : Inv s) : Inv s2 := by
  unfold unlock at h
  split at h
  · exact Except.noConfusion h
  · split at h
    · exact Except.noConfusion h
    next u hsome =>
      split at h
      · exact Except.noConfusion h
      · split at h
        · exact Except.noConfusion h
        next nb hnb =>
          injection h with h
          subst h
          exact inv_accMod_keepSB acct q.sym.code (fun a => { a with lockBalance := nb })
            rfl rfl rfl rfl (fun a => rfl) (fun a ha => ha) hs

end ACCToken

namespace ACCToken

/- ---------------------------------------------------------------------
Helper facts for the staking preservation proofs.
--------------------------------------------------------------------- -/

theorem Asset.is_valid_bounds {a : Asset} (h : a.is_valid = true) :
    -maxAmount ≤ a.amount ∧ a.amount ≤ maxAmount := by
  unfold Asset.is_valid at h
  simp only [Bool.and_eq_true, decide_eq_true_eq] at h
  exact ⟨h.1.1, h.1.2⟩

theorem toUint64_le_iff {a b : Int} (ha0 : 0 ≤ a) (ha1 : a ≤ maxAmount)
    (hb0 : 0 ≤ b) (hb1 : b ≤ maxAmount) : toUint64 a ≤ toUint64 b ↔ a ≤ b := by
  unfold toUint64
  unfold maxAmount at ha1 hb1
  have h1 : a % 18446744073709551616 = a := by omega
  have h2 : b % 18446744073709551616 = b := by omega
  rw [h1, h2]
  omega

theorem toUint64_eq_iff {a b : Int} (ha0 : 0 ≤ a) (ha1 : a ≤ maxAmount)
    (hb0 : 0 ≤ b) (hb1 : b ≤ maxAmount) : toUint64 a = toUint64 b ↔ a = b := by
  unfold toUint64
  unfold maxAmount at ha1 hb1
  have h1 : a % 18446744073709551616 = a := by omega
  have h2 : b % 18446744073709551616 = b := by omega
  rw [h1, h2]
  omega

theorem slAmt_nonneg {l : List (Nat × StakingLogRow)} {code user : Nat}
    (h : ∀ e ∈ l, 0 ≤ e.2.asset.amount ∧ e.2.asset.amount ≤ maxAmount) :
    0 ≤ slAmt l code user := by
  cases hf : slFind l code user with
  | none => simp [slAmt, hf]
  | some r =>
    have hm := h (code, r) (slFind_mem l code user r hf)
    simp only [slAmt, hf]
    exact hm.1

theorem ulAmt_nonneg {l : List (Nat × UnstakingLogRow)} {code user : Nat}
    (h : ∀ e ∈ l, 0 ≤ e.2.asset.amount ∧ e.2.asset.amount ≤ maxAmount) :
    0 ≤ ulAmt l code user := by
  cases hf : ulFind l code user with
  | none => simp [ulAmt, hf]
  | some r =>
    have hm := h (code, r) (ulFind_mem l code user r hf)
    simp only [ulAmt, hf]
    exact hm.1

theorem slFind_of_mem {l : List (Nat × StakingLogRow)} {code user : Nat}
    {x : Nat × StakingLogRow} (hu : l.countP (slMatch code user) ≤ 1)
    (hx : x ∈ l) (hpx : slMatch code user x = true) :
    slFind l code user = some x.2 := by
  unfold slFind
  rw [find?_eq_of_mem_of_countP_le_one (slMatch code user) l hu x hx hpx]
  rfl

theorem ulFind_of_mem {l : List (Nat × UnstakingLogRow)} {code user : Nat}
    {x : Nat × UnstakingLogRow} (hu : l.countP (ulMatch code user) ≤ 1)
    (hx : x ∈ l) (hpx : ulMatch code user x = true) :
    ulFind l code user = some x.2 := by
  unfold ulFind
  rw [find?_eq_of_mem_of_countP_le_one (ulMatch code user) l hu x hx hpx]
  rfl

/- ---------------------------------------------------------------------
Effect of the stake upserts on the observed values.
--------------------------------------------------------------------- -/

theorem stakingVal_upsert_self (l : List (Nat × StakeStatsRow)) (q : Asset) :
    stakingVal (stakeStatsUpsert l q.sym.code q) q.sym.code =
      stakingVal l q.sym.code + q.amount := by
  unfold stakeStatsUpsert
  cases hss : ssFind l q.sym.code with
  | none =>
    have hcons := ssFind_cons_self l q.sym.code
      { staking := q, unstaking := ⟨0, q.sym⟩ } rfl
    simp [stakingVal, hcons, hss]
  | some row =>
    have hmod := ssFind_ssMod_self l q.sym.code
      (fun r => { r with staking := { r.staking with amount := r.staking.amount + q.amount } })
      (fun r => rfl)
    simp [stakingVal, hmod, hss]

theorem stakingVal_upsert_other (l : List (Nat × StakeStatsRow)) (q : Asset) (c : Nat)
    (hc : ¬ q.sym.code = c) :
    stakingVal (stakeStatsUpsert l q.sym.code q) c = stakingVal l c := by
  unfold stakeStatsUpsert
  cases hss : ssFind l q.sym.code with
  | none =>
    have hcons := ssFind_cons_other l q.sym.code
      { staking := q, unstaking := ⟨0, q.sym⟩ } c hc
    simp [stakingVal, hcons]
  | some row =>
    have hmod := ssFind_ssMod_other l q.sym.code
      (fun r => { r with staking := { r.staking with amount := r.staking.amount + q.amount } })
      c hc (fun r => rfl)
    simp [stakingVal, hmod]

theorem unstakingVal_upsert_self (l : List (Nat × StakeStatsRow)) (q : Asset) :
    unstakingVal (stakeStatsUpsert l q.sym.code q) q.sym.code =
      unstakingVal l q.sym.code := by
  unfold stakeStatsUpsert
  cases hss : ssFind l q.sym.code with
  | none =>
    have hcons := ssFind_cons_self l q.sym.code
      { staking := q, unstaking := ⟨0, q.sym⟩ } rfl
    simp [unstakingVal, hcons, hss]
  | some row =>
    have hmod := ssFind_ssMod_self l q.sym.code
      (fun r => { r with staking := { r.staking with amount := r.staking.amount + q.amount } })
      (fun r => rfl)
    simp [unstakingVal, hmod, hss]

theorem unstakingVal_upsert_other (l : List (Nat × StakeStatsRow)) (q : Asset) (c : Nat)
    (hc : ¬ q.sym.code = c) :
    unstakingVal (stakeStatsUpsert l q.sym.code q) c = unstakingVal l c := by
  unfold stakeStatsUpsert
  cases hss : ssFind l q.sym.code with
  | none =>
    have hcons := ssFind_cons_other l q.sym.code
      { staking := q, unstaking := ⟨0, q.sym⟩ } c hc
    simp [unstakingVal, hcons]
  | some row =>
    have hmod := ssFind_ssMod_other l q.sym.code
      (fun r => { r with staking := { r.staking with amount := r.staking.amount + q.amount } })
      c hc (fun r => rfl)
    simp [unstakingVal, hmod]

theorem sumSL_stakeLogUpsert_self (l : List (Nat × StakingLogRow)) (code frm : Nat)
    (q : Asset) :
    sumSL (stakeLogUpsert l code frm q) code = sumSL l code + q.amount := by
  unfold stakeLogUpsert
  cases hsl : slFind l code frm with
  | none =>
    rw [sumSL_cons]
    simp only [beq_self_eq_true, if_pos]
    ring
  | some sl =>
    rw [sumSL_slMod l code frm _ sl hsl]
    simp only []
    ring

theorem sumSL_stakeLogUpsert_other (l : List (Nat × StakingLogRow)) (code frm : Nat)
    (q : Asset) (c : Nat) (hc : ¬ c = code) :
    sumSL (stakeLogUpsert l code frm q) c = sumSL l c := by
  unfold stakeLogUpsert
  cases hsl : slFind l code frm with
  | none =>
    rw [sumSL_cons]
    rw [if_neg (by simpa using fun hh => hc hh.symm)]
    ring
  | some sl => exact sumSL_slMod_ne l code frm c _ hc

theorem slAmt_stakeLogUpsert_self (l : List (Nat × StakingLogRow)) (code frm : Nat)
    (q : Asset) :
    slAmt (stakeLogUpsert l code frm q) code frm = slAmt l code frm + q.amount := by
  unfold stakeLogUpsert
  cases hsl : slFind l code frm with
  | none =>
    have hcons := slFind_cons_self l code { user := frm, asset := q }
    simp [slAmt, hcons, hsl]
  | some sl =>
    have hmod := slFind_slMod_self l code frm
      (fun r => { r with asset := { r.asset with amount := r.asset.amount + q.amount } })
      (fun r => rfl)
    simp [slAmt, hmod, hsl]

theorem slAmt_stakeLogUpsert_other (l : List (Nat × StakingLogRow)) (code frm : Nat)
    (q : Asset) (c u : Nat) (hk : ¬(code = c ∧ frm = u)) :
    slAmt (stakeLogUpsert l code frm q) c u = slAmt l c u := by
  unfold stakeLogUpsert
  cases hsl : slFind l code frm with
  | none =>
    have hcons := slFind_cons_other l code { user := frm, asset := q } c u hk
    simp [slAmt, hcons]
  | some sl =>
    have hmod := slFind_slMod_other l code frm
      (fun r => { r with asset := { r.asset with amount := r.asset.amount + q.amount } })
      c u hk (fun r => rfl)
    simp [slAmt, hmod]

theorem countP_stakeLogUpsert (l : List (Nat × StakingLogRow)) (code frm : Nat) (q : Asset)
    (hu : ∀ c u, l.countP (slMatch c u) ≤ 1) :
    ∀ c u, (stakeLogUpsert l code frm q).countP (slMatch c u) ≤ 1 := by
  intro c u
  unfold stakeLogUpsert
  cases hsl : slFind l code frm with
  | none =>
    rw [List.countP_cons]
    by_cases hm : slMatch c u (code, { user := frm, asset := q }) = true
    · have hcu : c = code ∧ u = frm := by
        simp only [slMatch, Bool.and_eq_true, beq_iff_eq] at hm
        exact ⟨hm.1.symm, hm.2.symm⟩
      obtain ⟨rfl, rfl⟩ := hcu
      have hzero : l.countP (slMatch c u) = 0 := by
        apply countP_eq_zero_of_find?_eq_none
        unfold slFind at hsl
        cases hfp : l.find? (slMatch c u) with
        | none => rfl
        | some pr => rw [hfp] at hsl; exact absurd hsl (by simp)
      rw [hzero, hm]
      simp
    · rw [Bool.eq_false_iff.mpr hm]
      simpa using hu c u
  | some sl =>
    unfold slMod
    rw [countP_modifyFirst (slMatch code frm) (slMatch c u) _ (by intro a ha; simp [slMatch])]
    exact hu c u

theorem range_stakeLogUpsert (l : List (Nat × StakingLogRow)) (code frm : Nat) (q : Asset)
    (hr : ∀ e ∈ l, 0 ≤ e.2.asset.amount ∧ e.2.asset.amount ≤ maxAmount)
    (hu : ∀ c u, l.countP (slMatch c u) ≤ 1)
    (hqpos : 0 < q.amount) (hqhi : q.amount ≤ maxAmount)
    (hb : slAmt l code frm + q.amount ≤ maxAmount) :
    ∀ e ∈ stakeLogUpsert l code frm q, 0 ≤ e.2.asset.amount ∧ e.2.asset.amount ≤ maxAmount := by
  intro e
  unfold stakeLogUpsert
  cases hsl : slFind l code frm with
  | none =>
    intro he
    rcases List.mem_cons.mp he with rfl | hmem
    · constructor
      · simp only []
        omega
      · simp only []
        omega
    · exact hr e hmem
  | some sl =>
    intro he
    rcases mem_modifyFirst _ _ _ he with hmem | ⟨x, hx, hpx, heq⟩
    · exact hr e hmem
    · subst heq
      have hxfind := slFind_of_mem (hu code frm) hx hpx
      rw [hsl] at hxfind
      injection hxfind with hxe
      have hxr := hr x hx
      have hamt : slAmt l code frm = sl.asset.amount := by
        simp [slAmt, hsl]
      constructor
      · simp only []
        omega
      · simp only []
        rw [← hxe]
        omega

end ACCToken

namespace ACCToken

theorem inv_stake {frm : Nat} {q : Asset} {auth : List Nat} {s s2 : State}
    (h : stake frm q auth s = .ok s2) (hs : Inv s) : Inv s2 := by
  unfold stake at h
  split at h
  · exact Except.noConfusion h
  · split at h
    · exact Except.noConfusion h
    · split at h
      · exact Except.noConfusion h
      next hval =>
        split at h
        · exact Except.noConfusion h
        next hpos =>
          split at h
          · exact Except.noConfusion h
          next acc hacc =>
            split at h
            · exact Except.noConfusion h
            next havail =>
              split at h
              · exact Except.noConfusion h
              next nsb hnsb =>
                injection h with h
                subst h
                have hqpos : 0 < q.amount := not_not.mp hpos
                have hqval : q.is_valid = true := not_not.mp hval
                have hqbounds := Asset.is_valid_bounds hqval
                obtain ⟨hnsbamt, hnsbsym, hnsblo, hnsbhi, hsymeq⟩ := Asset.addChecked_ok hnsb
                have hdec := hs.decompEq frm q.sym.code
                have hsbv : stakeBalVal s.accounts frm q.sym.code = acc.stakeBalance.amount := by
                  simp [stakeBalVal, hacc]
                rw [hsbv] at hdec
                have hulnn : 0 ≤ ulAmt s.unstakingLogs q.sym.code frm := ulAmt_nonneg hs.ulRange
                refine ⟨?_, hs.uniqUL, ?_, hs.ulRange, ?_, ?_, ?_, ?_⟩
                · exact countP_stakeLogUpsert s.stakingLogs q.sym.code frm q hs.uniqSL
                · exact range_stakeLogUpsert s.stakingLogs q.sym.code frm q hs.slRange
                    hs.uniqSL hqpos hqbounds.2 (by omega)
                · intro e he
                  rcases mem_modifyFirst _ _ _ he with hmem | ⟨x, hx, hpx, heq⟩
                  · exact hs.sbRange e hmem
                  · subst heq
                    simp only []
                    omega
                · intro c
                  by_cases hc : c = q.sym.code
                  · subst hc
                    rw [stakingVal_upsert_self s.stakeStats q,
                        sumSL_stakeLogUpsert_self s.stakingLogs q.sym.code frm q]
                    rw [hs.stakingEq q.sym.code]
                  · rw [stakingVal_upsert_other s.stakeStats q c (fun hh => hc hh.symm),
                        sumSL_stakeLogUpsert_other s.stakingLogs q.sym.code frm q c hc]
                    exact hs.stakingEq c
                · intro c
                  by_cases hc : c = q.sym.code
                  · subst hc
                    rw [unstakingVal_upsert_self s.stakeStats q]
                    exact hs.unstakingEq q.sym.code
                  · rw [unstakingVal_upsert_other s.stakeStats q c (fun hh => hc hh.symm)]
                    exact hs.unstakingEq c
                · intro o c
                  by_cases hk : frm = o ∧ q.sym.code = c
                  · obtain ⟨rfl, rfl⟩ := hk
                    have hsv : stakeBalVal
                        (accMod s.accounts frm q.sym.code (fun a => { a with stakeBalance := nsb }))
                        frm q.sym.code = nsb.amount := by
                      unfold stakeBalVal
                      rw [accFind_accMod_self s.accounts frm q.sym.code
                        (fun a => { a with stakeBalance := nsb }) (fun a ha => ha), hacc]
                      rfl
                    show stakeBalVal
                        (accMod s.accounts frm q.sym.code (fun a => { a with stakeBalance := nsb }))
                        frm q.sym.code = _
                    rw [hsv, slAmt_stakeLogUpsert_self s.stakingLogs q.sym.code frm q]
                    rw [hnsbamt, hdec]
                    ring
                  · have hsv : stakeBalVal
                        (accMod s.accounts frm q.sym.code (fun a => { a with stakeBalance := nsb }))
                        o c = stakeBalVal s.accounts o c := by
                      unfold stakeBalVal
                      rw [accFind_accMod_other s.accounts frm q.sym.code
                        (fun a => { a with stakeBalance := nsb }) o c hk (fun a ha => ha)]
                    show stakeBalVal
                        (accMod s.accounts frm q.sym.code (fun a => { a with stakeBalance := nsb }))
                        o c = _
                    rw [hsv, slAmt_stakeLogUpsert_other s.stakingLogs q.sym.code frm q c o
                      (fun hh => hk ⟨hh.2, hh.1⟩)]
                    exact hs.decompEq o c

end ACCToken

namespace ACCToken

/- ---------------------------------------------------------------------
Effect of the unstake updates on the observed values.
--------------------------------------------------------------------- -/

/-- Everything the "update staking log" block of `unstake` does to the log
table, given the guard `stake_amount >= quantity.amount` (as uint64). -/
theorem unstakeLogUpdate_spec (l : List (Nat × StakingLogRow)) (code frm : Nat)
    (q : Asset) (sl : StakingLogRow) (hsl : slFind l code frm = some sl)
    (hr : ∀ e ∈ l, 0 ≤ e.2.asset.amount ∧ e.2.asset.amount ≤ maxAmount)
    (hu : ∀ c u, l.countP (slMatch c u) ≤ 1)
    (hqpos : 0 < q.amount) (hqhi : q.amount ≤ maxAmount)
    (hguard : toUint64 q.amount ≤ toUint64 sl.asset.amount) :
    sumSL (unstakeLogUpdate l code frm q sl) code = sumSL l code - q.amount ∧
    (∀ c, ¬ c = code → sumSL (unstakeLogUpdate l code frm q sl) c = sumSL l c) ∧
    slAmt (unstakeLogUpdate l code frm q sl) code frm = slAmt l code frm - q.amount ∧
    (∀ c u, ¬(code = c ∧ frm = u) →
      slAmt (unstakeLogUpdate l code frm q sl) c u = slAmt l c u) ∧
    (∀ c u, (unstakeLogUpdate l code frm q sl).countP (slMatch c u) ≤ 1) ∧
    (∀ e ∈ unstakeLogUpdate l code frm q sl,
      0 ≤ e.2.asset.amount ∧ e.2.asset.amount ≤ maxAmount) := by
  have hslr0 := hr (code, sl) (slFind_mem l code frm sl hsl)
  have hslr : 0 ≤ sl.asset.amount ∧ sl.asset.amount ≤ maxAmount := hslr0
  have hqle : q.amount ≤ sl.asset.amount :=
    (toUint64_le_iff (by omega) hqhi hslr.1 hslr.2).mp hguard
  have hslamt : slAmt l code frm = sl.asset.amount := by simp [slAmt, hsl]
  unfold unstakeLogUpdate
  by_cases heq : toUint64 q.amount == toUint64 sl.asset.amount
  · have hqeq : q.amount = sl.asset.amount :=
      (toUint64_eq_iff (by omega) hqhi hslr.1 hslr.2).mp (by simpa using heq)
    rw [if_pos heq]
    refine ⟨?_, ?_, ?_, ?_, ?_, ?_⟩
    · rw [sumSL_slErase l code frm sl hsl]
      omega
    · intro c hc
      exact sumSL_slErase_ne l code frm c hc
    · have herase := slFind_slErase_self l code frm (hu code frm)
      simp only [slAmt, herase, hsl]
      omega
    · intro c u hk
      unfold slAmt
      rw [slFind_slErase_other l code frm c u hk]
    · intro c u
      calc (slErase l code frm).countP (slMatch c u)
          ≤ l.countP (slMatch c u) := countP_eraseFirst_le _ _ l
        _ ≤ 1 := hu c u
    · intro e he
      exact hr e (mem_eraseFirst _ l he)
  · rw [if_neg (by simpa using heq)]
    have huser : ∀ r : StakingLogRow,
        (({ r with asset := { r.asset with amount := r.asset.amount - q.amount } } :
          StakingLogRow)).user = r.user := fun r => rfl
    refine ⟨?_, ?_, ?_, ?_, ?_, ?_⟩
    · rw [sumSL_slMod l code frm _ sl hsl]
      simp only []
      ring
    · intro c hc
      exact sumSL_slMod_ne l code frm c _ hc
    · have hmod := slFind_slMod_self l code frm
        (fun r => { r with asset := { r.asset with amount := r.asset.amount - q.amount } })
        (fun r => rfl)
      simp [slAmt, hmod, hsl]
    · intro c u hk
      have hmod := slFind_slMod_other l code frm
        (fun r => { r with asset := { r.asset with amount := r.asset.amount - q.amount } })
        c u hk (fun r => rfl)
      simp [slAmt, hmod]
    · intro c u
      unfold slMod
      rw [countP_modifyFirst (slMatch code frm) (slMatch c u) _ (by intro a ha; simp [slMatch])]
      exact hu c u
    · intro e he
      rcases mem_modifyFirst _ _ _ he with hmem | ⟨x, hx, hpx, hxeq⟩
      · exact hr e hmem
      · subst hxeq
        have hxfind := slFind_of_mem (hu code frm) hx hpx
        rw [hsl] at hxfind
        injection hxfind with hxe
        have hxr := hr x hx
        constructor
        · simp only []
          rw [← hxe]
          omega
        · simp only []
          omega

/-- Everything the "save unstaking log" block of the deferred path does on
success. -/
theorem unstakeLogUpsert_ok {l : List (Nat × UnstakingLogRow)} {code frm : Nat}
    {q : Asset} {now : Nat} {ulogs : List (Nat × UnstakingLogRow)}
    (h : unstakeLogUpsert l code frm q now = .ok ulogs)
    (hr : ∀ e ∈ l, 0 ≤ e.2.asset.amount ∧ e.2.asset.amount ≤ maxAmount)
    (hu : ∀ c u, l.countP (ulMatch c u) ≤ 1)
    (hqpos : 0 < q.amount) (hqhi : q.amount ≤ maxAmount) :
    sumUL ulogs code = sumUL l code + q.amount ∧
    (∀ c, ¬ c = code → sumUL ulogs c = sumUL l c) ∧
    ulAmt ulogs code frm = ulAmt l code frm + q.amount ∧
    (∀ c u, ¬(code = c ∧ frm = u) → ulAmt ulogs c u = ulAmt l c u) ∧
    (∀ c u, ulogs.countP (ulMatch c u) ≤ 1) ∧
    (∀ e ∈ ulogs, 0 ≤ e.2.asset.amount ∧ e.2.asset.amount ≤ maxAmount) := by
  unfold unstakeLogUpsert at h
  split at h
  next hul =>
    injection h with h
    subst h
    refine ⟨?_, ?_, ?_, ?_, ?_, ?_⟩
    · rw [sumUL_cons]
      simp only [beq_self_eq_true, if_pos]
      have : ulAmt l code frm = 0 := by simp [ulAmt, hul]
      ring
    · intro c hc
      rw [sumUL_cons, if_neg (by simpa using fun hh => hc hh.symm)]
      ring
    · have hcons := ulFind_cons_self l code { user := frm, asset := q, requestTime := now }
      simp [ulAmt, hcons, hul]
    · intro c u hk
      have hcons := ulFind_cons_other l code { user := frm, asset := q, requestTime := now } c u hk
      simp [ulAmt, hcons]
    · intro c u
      rw [List.countP_cons]
      by_cases hm : ulMatch c u (code, { user := frm, asset := q, requestTime := now }) = true
      · have hcu : c = code ∧ u = frm := by
          simp only [ulMatch, Bool.and_eq_true, beq_iff_eq] at hm
          exact ⟨hm.1.symm, hm.2.symm⟩
        obtain ⟨rfl, rfl⟩ := hcu
        have hzero : l.countP (ulMatch c u) = 0 := by
          apply countP_eq_zero_of_find?_eq_none
          unfold ulFind at hul
          cases hfp : l.find? (ulMatch c u) with
          | none => rfl
          | some pr => rw [hfp] at hul; exact absurd hul (by simp)
        rw [hzero, hm]
        simp
      · rw [Bool.eq_false_iff.mpr hm]
        simpa using hu c u
    · intro e he
      rcases List.mem_cons.mp he with rfl | hmem
      · constructor
        · simp only []
          omega
        · simp only []
          omega
      · exact hr e hmem
  next ul hul =>
    split at h
    · exact Except.noConfusion h
    next na hna =>
      injection h with h
      subst h
      obtain ⟨hnaamt, hnasym, hnalo, hnahi, hsymeq⟩ := Asset.addChecked_ok hna
      have hulr0 := hr (code, ul) (ulFind_mem l code frm ul hul)
      have hulr : 0 ≤ ul.asset.amount ∧ ul.asset.amount ≤ maxAmount := hulr0
      refine ⟨?_, ?_, ?_, ?_, ?_, ?_⟩
      · rw [sumUL_ulMod l code frm _ ul hul]
        simp only []
        omega
      · intro c hc
        exact sumUL_ulMod_ne l code frm c _ hc
      · have hmod := ulFind_ulMod_self l code frm
          (fun r => { r with asset := na, requestTime := now }) (fun r => rfl)
        simp [ulAmt, hmod, hul]
        omega
      · intro c u hk
        have hmod := ulFind_ulMod_other l code frm
          (fun r => { r with asset := na, requestTime := now }) c u hk (fun r => rfl)
        simp [ulAmt, hmod]
      · intro c u
        unfold ulMod
        rw [countP_modifyFirst (ulMatch code frm) (ulMatch c u) _ (by intro a ha; simp [ulMatch])]
        exact hu c u
      · intro e he
        rcases mem_modifyFirst _ _ _ he with hmem | ⟨x, hx, hpx, hxeq⟩
        · exact hr e hmem
        · subst hxeq
          have hxfind := ulFind_of_mem (hu code frm) hx hpx
          rw [hul] at hxfind
          injection hxfind with hxe
          constructor
          · simp only []
            omega
          · simp only []
            omega

end ACCToken

namespace ACCToken

/- ---------------------------------------------------------------------
Stats-row modifications of unstake and deferrelease.
--------------------------------------------------------------------- -/

/-- The immediate path's stats update (`staking -= quantity`). -/
theorem ssModSubStaking_vals (l : List (Nat × StakeStatsRow)) (code : Nat) (q : Asset)
    {row : StakeStatsRow} (hss : ssFind l code = some row) :
    stakingVal (ssMod l code
      (fun r => { r with staking := { r.staking with amount := r.staking.amount - q.amount } }))
      code = stakingVal l code - q.amount ∧
    unstakingVal (ssMod l code
      (fun r => { r with staking := { r.staking with amount := r.staking.amount - q.amount } }))
      code = unstakingVal l code := by
  have hmod := ssFind_ssMod_self l code
    (fun r => { r with staking := { r.staking with amount := r.staking.amount - q.amount } })
    (fun r => rfl)
  constructor
  · simp [stakingVal, hmod, hss]
  · simp [unstakingVal, hmod, hss]

theorem ssModSubStaking_other (l : List (Nat × StakeStatsRow)) (code : Nat) (q : Asset)
    (c : Nat) (hc : ¬ code = c) :
    stakingVal (ssMod l code
      (fun r => { r with staking := { r.staking with amount := r.staking.amount - q.amount } }))
      c = stakingVal l c ∧
    unstakingVal (ssMod l code
      (fun r => { r with staking := { r.staking with amount := r.staking.amount - q.amount } }))
      c = unstakingVal l c := by
  have hmod := ssFind_ssMod_other l code
    (fun r => { r with staking := { r.staking with amount := r.staking.amount - q.amount } })
    c hc (fun r => rfl)
  constructor
  · simp [stakingVal, hmod]
  · simp [unstakingVal, hmod]

/-- The deferred path's stats update (`unstaking += q; staking -= q`). -/
theorem ssModDefer_vals (l : List (Nat × StakeStatsRow)) (code : Nat) (q : Asset)
    {row : StakeStatsRow} (hss : ssFind l code = some row) :
    stakingVal (ssMod l code
      (fun r => { r with
        unstaking := { r.unstaking with amount := r.unstaking.amount + q.amount },
        staking := { r.staking with amount := r.staking.amount - q.amount } }))
      code = stakingVal l code - q.amount ∧
    unstakingVal (ssMod l code
      (fun r => { r with
        unstaking := { r.unstaking with amount := r.unstaking.amount + q.amount },
        staking := { r.staking with amount := r.staking.amount - q.amount } }))
      code = unstakingVal l code + q.amount := by
  have hmod := ssFind_ssMod_self l code
    (fun r => { r with
      unstaking := { r.unstaking with amount := r.unstaking.amount + q.amount },
      staking := { r.staking with amount := r.staking.amount - q.amount } })
    (fun r => rfl)
  constructor
  · simp [stakingVal, hmod, hss]
  · simp [unstakingVal, hmod, hss]

theorem ssModDefer_other (l : List (Nat × StakeStatsRow)) (code : Nat) (q : Asset)
    (c : Nat) (hc : ¬ code = c) :
    stakingVal (ssMod l code
      (fun r => { r with
        unstaking := { r.unstaking with amount := r.unstaking.amount + q.amount },
        staking := { r.staking with amount := r.staking.amount - q.amount } }))
      c = stakingVal l c ∧
    unstakingVal (ssMod l code
      (fun r => { r with
        unstaking := { r.unstaking with amount := r.unstaking.amount + q.amount },
        staking := { r.staking with amount := r.staking.amount - q.amount } }))
      c = unstakingVal l c := by
  have hmod := ssFind_ssMod_other l code
    (fun r => { r with
      unstaking := { r.unstaking with amount := r.unstaking.amount + q.amount },
      staking := { r.staking with amount := r.staking.amount - q.amount } })
    c hc (fun r => rfl)
  constructor
  · simp [stakingVal, hmod]
  · simp [unstakingVal, hmod]

/-- The release's stats update (`unstaking -= amount`). -/
theorem ssModSubUnstaking_vals (l : List (Nat × StakeStatsRow)) (code : Nat) (amt : Int)
    {row : StakeStatsRow} (hss : ssFind l code = some row) :
    stakingVal (ssMod l code
      (fun r => { r with unstaking := { r.unstaking with amount := r.unstaking.amount - amt } }))
      code = stakingVal l code ∧
    unstakingVal (ssMod l code
      (fun r => { r with unstaking := { r.unstaking with amount := r.unstaking.amount - amt } }))
      code = unstakingVal l code - amt := by
  have hmod := ssFind_ssMod_self l code
    (fun r => { r with unstaking := { r.unstaking with amount := r.unstaking.amount - amt } })
    (fun r => rfl)
  constructor
  · simp [stakingVal, hmod, hss]
  · simp [unstakingVal, hmod, hss]

theorem ssModSubUnstaking_other (l : List (Nat × StakeStatsRow)) (code : Nat) (amt : Int)
    (c : Nat) (hc : ¬ code = c) :
    stakingVal (ssMod l code
      (fun r => { r with unstaking := { r.unstaking with amount := r.unstaking.amount - amt } }))
      c = stakingVal l c ∧
    unstakingVal (ssMod l code
      (fun r => { r with unstaking := { r.unstaking with amount := r.unstaking.amount - amt } }))
      c = unstakingVal l c := by
  have hmod := ssFind_ssMod_other l code
    (fun r => { r with unstaking := { r.unstaking with amount := r.unstaking.amount - amt } })
    c hc (fun r => rfl)
  constructor
  · simp [stakingVal, hmod]
  · simp [unstakingVal, hmod]

/- ---------------------------------------------------------------------
Invariant preservation: unstake and deferrelease.
--------------------------------------------------------------------- -/

theorem inv_unstake {frm : Nat} {q : Asset} {inst : Int} {auth : List Nat} {now : Nat}
    {s s2 : State} (h : unstake frm q inst auth now s = .ok s2) (hs : Inv s) : Inv s2 := by
  unfold unstake at h
  split at h
  · exact Except.noConfusion h
  · split at h
    · exact Except.noConfusion h
    · split at h
      · exact Except.noConfusion h
      next hval =>
        split at h
        · exact Except.noConfusion h
        next hpos =>
          split at h
          · exact Except.noConfusion h
          next sl hsl =>
            split at h
            · exact Except.noConfusion h
            next hguard =>
              have hqpos : 0 < q.amount := not_not.mp hpos
              have hqval : q.is_valid = true := not_not.mp hval
              have hqbounds := Asset.is_valid_bounds hqval
              have hguard2 : toUint64 q.amount ≤ toUint64 sl.asset.amount := not_not.mp hguard
              obtain ⟨hsum1, hsum2, hamt1, hamt2, hcnt, hrng⟩ :=
                unstakeLogUpdate_spec s.stakingLogs q.sym.code frm q sl hsl
                  hs.slRange hs.uniqSL hqpos hqbounds.2 hguard2
              split at h
              · -- immediate path
                split at h
                · exact Except.noConfusion h
                · split at h
                  · exact Except.noConfusion h
                  next row hss =>
                    split at h
                    · exact Except.noConfusion h
                    next a hacc =>
                      injection h with h
                      subst h
                      obtain ⟨hsv1, hsv2⟩ := ssModSubStaking_vals s.stakeStats q.sym.code q hss
                      refine ⟨hcnt, hs.uniqUL, hrng, hs.ulRange, ?_, ?_, ?_, ?_⟩
                      · intro e he
                        rcases mem_modifyFirst _ _ _ he with hmem | ⟨x, hx, hpx, heq⟩
                        · exact hs.sbRange e hmem
                        · subst heq
                          have := hs.sbRange x hx
                          simp only []
                          omega
                      · intro c
                        dsimp only []
                        by_cases hc : c = q.sym.code
                        · subst hc
                          rw [hsv1, hsum1, hs.stakingEq q.sym.code]
                        · obtain ⟨ho1, ho2⟩ :=
                            ssModSubStaking_other s.stakeStats q.sym.code q c
                              (fun hh => hc hh.symm)
                          rw [ho1, hsum2 c (fun hh => hc hh)]
                          exact hs.stakingEq c
                      · intro c
                        dsimp only []
                        by_cases hc : c = q.sym.code
                        · subst hc
                          rw [hsv2]
                          exact hs.unstakingEq q.sym.code
                        · obtain ⟨ho1, ho2⟩ :=
                            ssModSubStaking_other s.stakeStats q.sym.code q c
                              (fun hh => hc hh.symm)
                          rw [ho2]
                          exact hs.unstakingEq c
                      · intro o c
                        dsimp only []
                        by_cases hk : frm = o ∧ q.sym.code = c
                        · obtain ⟨rfl, rfl⟩ := hk
                          have hsv : stakeBalVal
                              (accMod s.accounts frm q.sym.code
                                (fun a => { a with stakeBalance := { a.stakeBalance with amount := a.stakeBalance.amount - q.amount } }))
                              frm q.sym.code = a.stakeBalance.amount - q.amount := by
                            unfold stakeBalVal
                            rw [accFind_accMod_self s.accounts frm q.sym.code
                              (fun a => { a with stakeBalance := { a.stakeBalance with amount := a.stakeBalance.amount - q.amount } })
                              (fun a2 ha2 => ha2), hacc]
                            rfl
                          rw [hsv, hamt1]
                          have hdec := hs.decompEq frm q.sym.code
                          have hsbv : stakeBalVal s.accounts frm q.sym.code = a.stakeBalance.amount := by
                            simp [stakeBalVal, hacc]
                          rw [hsbv] at hdec
                          omega
                        · have hsv : stakeBalVal
                              (accMod s.accounts frm q.sym.code
                                (fun a => { a with stakeBalance := { a.stakeBalance with amount := a.stakeBalance.amount - q.amount } }))
                              o c = stakeBalVal s.accounts o c := by
                            unfold stakeBalVal
                            rw [accFind_accMod_other s.accounts frm q.sym.code
                              (fun a => { a with stakeBalance := { a.stakeBalance with amount := a.stakeBalance.amount - q.amount } })
                              o c hk (fun a2 ha2 => ha2)]
                          rw [hsv, hamt2 c o (fun hh => hk ⟨hh.2, hh.1⟩)]
                          exact hs.decompEq o c
              · -- deferred path
                split at h
                · exact Except.noConfusion h
                next ulogs hup =>
                  split at h
                  · exact Except.noConfusion h
                  next row hss =>
                    split at h
                    · exact Except.noConfusion h
                    next d hd =>
                      injection h with h
                      subst h
                      obtain ⟨husum1, husum2, huamt1, huamt2, hucnt, hurng⟩ :=
                        unstakeLogUpsert_ok hup hs.ulRange hs.uniqUL hqpos hqbounds.2
                      obtain ⟨hdv1, hdv2⟩ := ssModDefer_vals s.stakeStats q.sym.code q hss
                      refine ⟨hcnt, hucnt, hrng, hurng, hs.sbRange, ?_, ?_, ?_⟩
                      · intro c
                        dsimp only []
                        by_cases hc : c = q.sym.code
                        · subst hc
                          rw [hdv1, hsum1, hs.stakingEq q.sym.code]
                        · obtain ⟨ho1, ho2⟩ :=
                            ssModDefer_other s.stakeStats q.sym.code q c (fun hh => hc hh.symm)
                          rw [ho1, hsum2 c (fun hh => hc hh)]
                          exact hs.stakingEq c
                      · intro c
                        dsimp only []
                        by_cases hc : c = q.sym.code
                        · subst hc
                          rw [hdv2, husum1, hs.unstakingEq q.sym.code]
                        · obtain ⟨ho1, ho2⟩ :=
                            ssModDefer_other s.stakeStats q.sym.code q c (fun hh => hc hh.symm)
                          rw [ho2, husum2 c (fun hh => hc hh)]
                          exact hs.unstakingEq c
                      · intro o c
                        dsimp only []
                        by_cases hk : frm = o ∧ q.sym.code = c
                        · obtain ⟨rfl, rfl⟩ := hk
                          rw [hamt1, huamt1]
                          have hdec := hs.decompEq frm q.sym.code
                          omega
                        · rw [hamt2 c o (fun hh => hk ⟨hh.2, hh.1⟩),
                              huamt2 c o (fun hh => hk ⟨hh.2, hh.1⟩)]
                          exact hs.decompEq o c

theorem inv_deferrelease {frm : Nat} {sym : Symbol} {auth : List Nat} {s s2 : State}
    (h : deferrelease frm sym auth s = .ok s2) (hs : Inv s) : Inv s2 := by
  unfold deferrelease at h
  split at h
  · exact Except.noConfusion h
  · split at h
    · exact Except.noConfusion h
    next ul hul =>
      split at h
      · exact Except.noConfusion h
      next row hss =>
        split at h
        · exact Except.noConfusion h
        next a hacc =>
          injection h with h
          subst h
          have hulr0 := hs.ulRange (sym.code, ul) (ulFind_mem s.unstakingLogs sym.code frm ul hul)
          have hulr : 0 ≤ ul.asset.amount ∧ ul.asset.amount ≤ maxAmount := hulr0
          have hulamt : ulAmt s.unstakingLogs sym.code frm = ul.asset.amount := by
            simp [ulAmt, hul]
          obtain ⟨hsv1, hsv2⟩ :=
            ssModSubUnstaking_vals s.stakeStats sym.code ul.asset.amount hss
          refine ⟨hs.uniqSL, ?_, hs.slRange, ?_, ?_, ?_, ?_, ?_⟩
          · intro c u
            calc (ulErase s.unstakingLogs sym.code frm).countP (ulMatch c u)
                ≤ s.unstakingLogs.countP (ulMatch c u) := countP_eraseFirst_le _ _ _
              _ ≤ 1 := hs.uniqUL c u
          · intro e he
            exact hs.ulRange e (mem_eraseFirst _ _ he)
          · intro e he
            rcases mem_modifyFirst _ _ _ he with hmem | ⟨x, hx, hpx, heq⟩
            · exact hs.sbRange e hmem
            · subst heq
              have := hs.sbRange x hx
              simp only []
              omega
          · intro c
            dsimp only []
            by_cases hc : c = sym.code
            · subst hc
              rw [hsv1]
              exact hs.stakingEq sym.code
            · obtain ⟨ho1, ho2⟩ :=
                ssModSubUnstaking_other s.stakeStats sym.code ul.asset.amount c
                  (fun hh => hc hh.symm)
              rw [ho1]
              exact hs.stakingEq c
          · intro c
            dsimp only []
            by_cases hc : c = sym.code
            · subst hc
              rw [hsv2]
              have hesum := sumUL_ulErase s.unstakingLogs sym.code frm ul hul
              rw [hesum, hs.unstakingEq sym.code]
            · obtain ⟨ho1, ho2⟩ :=
                ssModSubUnstaking_other s.stakeStats sym.code ul.asset.amount c
                  (fun hh => hc hh.symm)
              rw [ho2, sumUL_ulErase_ne s.unstakingLogs sym.code frm c hc]
              exact hs.unstakingEq c
          · intro o c
            dsimp only []
            by_cases hk : frm = o ∧ sym.code = c
            · obtain ⟨rfl, rfl⟩ := hk
              have hsv : stakeBalVal
                  (accMod s.accounts frm sym.code
                    (fun a => { a with stakeBalance := { a.stakeBalance with amount := a.stakeBalance.amount - ul.asset.amount } }))
                  frm sym.code = a.stakeBalance.amount - ul.asset.amount := by
                unfold stakeBalVal
                rw [accFind_accMod_self s.accounts frm sym.code
                  (fun a => { a with stakeBalance := { a.stakeBalance with amount := a.stakeBalance.amount - ul.asset.amount } })
                  (fun a2 ha2 => ha2), hacc]
                rfl
              rw [hsv]
              have herase : ulAmt (ulErase s.unstakingLogs sym.code frm) sym.code frm = 0 := by
                simp [ulAmt, ulFind_ulErase_self s.unstakingLogs sym.code frm (hs.uniqUL sym.code frm)]
              rw [herase]
              have hdec := hs.decompEq frm sym.code
              have hsbv : stakeBalVal s.accounts frm sym.code = a.stakeBalance.amount := by
                simp [stakeBalVal, hacc]
              rw [hsbv, hulamt] at hdec
              omega
            · have hsv : stakeBalVal
                  (accMod s.accounts frm sym.code
                    (fun a => { a with stakeBalance := { a.stakeBalance with amount := a.stakeBalance.amount - ul.asset.amount } }))
                  o c = stakeBalVal s.accounts o c := by
                unfold stakeBalVal
                rw [accFind_accMod_other s.accounts frm sym.code
                  (fun a => { a with stakeBalance := { a.stakeBalance with amount := a.stakeBalance.amount - ul.asset.amount } })
                  o c hk (fun a2 ha2 => ha2)]
              rw [hsv]
              have herase : ulAmt (ulErase s.unstakingLogs sym.code frm) c o =
                  ulAmt s.unstakingLogs c o := by
                unfold ulAmt
                rw [ulFind_ulErase_other s.unstakingLogs sym.code frm c o
                  (fun hh => hk ⟨hh.2, hh.1⟩)]
              rw [herase]
              exact hs.decompEq o c

end ACCToken

namespace ACCToken

/- ---------------------------------------------------------------------
The invariant holds in every reachable state.
--------------------------------------------------------------------- -/

theorem inv_initial (chain : List Nat) : Inv (initialState chain) := by
  refine ⟨?_, ?_, ?_, ?_, ?_, ?_, ?_, ?_⟩ <;> intros <;> simp_all [initialState, stakingVal,
    unstakingVal, slAmt, ulAmt, stakeBalVal, sumSL, sumUL, sumBy, ssFind, slFind, ulFind,
    accFind, cfgFind]

theorem inv_step {s s2 : State} (hst : Step s s2) (hs : Inv s) : Inv s2 := by
  cases hst with
  | initS h => exact inv_init h hs
  | createS h => exact inv_create h hs
  | issueS h => exact inv_issue h hs
  | transferS h => exact inv_transfer h hs
  | lockS h => exact inv_lock h hs
  | unlockS h => exact inv_unlock h hs
  | stakeS h => exact inv_stake h hs
  | unstakeS h => exact inv_unstake h hs
  | deferreleaseS h => exact inv_deferrelease h hs
  | setsstatusS h => exact inv_setsstatus h hs
  | setistatusS h => exact inv_setistatus h hs
  | settstatusS h => exact inv_settstatus h hs
  | setustS h => exact inv_setust h hs

theorem inv_reachable {s : State} (h : Reachable s) : Inv s := by
  induction h with
  | base chain => exact inv_initial chain
  | step hr hst ih => exact inv_step hst ih

end ACCToken

namespace ACCToken

/- ---------------------------------------------------------------------
Success/failure characterizations of single actions (used by the
functional-correctness claims).
--------------------------------------------------------------------- -/

theorem stake_ok_char {frm : Nat} {q : Asset} {auth : List Nat} {s : State} {acc : AccountRow}
    {nsb : Asset}
    (hauth : auth.contains frm = true)
    (hen : assert_status s cfgSStatus = .ok ())
    (hv : q.is_valid = true) (hp : 0 < q.amount)
    (hacc : accFind s.accounts frm q.sym.code = some acc)
    (havail : q.amount ≤ acc.balance.amount - acc.lockBalance.amount - acc.stakeBalance.amount)
    (hnsb : Asset.addChecked acc.stakeBalance q = .ok nsb) :
    stake frm q auth s = .ok { s with
      stakingLogs := stakeLogUpsert s.stakingLogs q.sym.code frm q,
      stakeStats := stakeStatsUpsert s.stakeStats q.sym.code q,
      accounts := accMod s.accounts frm q.sym.code (fun a => { a with stakeBalance := nsb }) } := by
  unfold stake
  rw [if_neg (by simpa using hauth)]
  simp only [hen]
  rw [if_neg (by simp [hv]), if_neg (not_not_intro hp)]
  simp only [hacc]
  rw [if_neg (not_not_intro havail)]
  simp only [hnsb]

theorem unstake_immediate_ok_char {frm : Nat} {q : Asset} {inst : Int} {auth : List Nat}
    {now : Nat} {s : State} {sl : StakingLogRow} {row : StakeStatsRow} {acc : AccountRow}
    (hinst : ¬ inst = 0)
    (hauthSELF : auth.contains SELF = true)
    (hen : assert_status s cfgSStatus = .ok ())
    (hv : q.is_valid = true) (hp : 0 < q.amount)
    (hsl : slFind s.stakingLogs q.sym.code frm = some sl)
    (hguard : toUint64 q.amount ≤ toUint64 sl.asset.amount)
    (hss : ssFind s.stakeStats q.sym.code = some row)
    (hacc : accFind s.accounts frm q.sym.code = some acc) :
    unstake frm q inst auth now s = .ok { s with
      stakingLogs := unstakeLogUpdate s.stakingLogs q.sym.code frm q sl,
      stakeStats := ssMod s.stakeStats q.sym.code
        (fun r => { r with staking := { r.staking with amount := r.staking.amount - q.amount } }),
      accounts := accMod s.accounts frm q.sym.code
        (fun a => { a with stakeBalance := { a.stakeBalance with amount := a.stakeBalance.amount - q.amount } }) } := by
  unfold unstake
  rw [if_neg (by simp only [Bool.or_eq_true, not_not]; exact Or.inr hauthSELF)]
  simp only [hen]
  rw [if_neg (by simp [hv]), if_neg (not_not_intro hp)]
  simp only [hsl]
  rw [if_neg (not_not_intro hguard)]
  rw [if_pos (by simpa using hinst)]
  rw [if_neg (by simpa using hauthSELF)]
  simp only [hss, hacc]

theorem unstake_deferred_ok_char {frm : Nat} {q : Asset} {auth : List Nat}
    {now : Nat} {s : State} {sl : StakingLogRow} {row : StakeStatsRow}
    {ulogs : List (Nat × UnstakingLogRow)} {d : Nat}
    (hauth : auth.contains frm = true)
    (hen : assert_status s cfgSStatus = .ok ())
    (hv : q.is_valid = true) (hp : 0 < q.amount)
    (hsl : slFind s.stakingLogs q.sym.code frm = some sl)
    (hguard : toUint64 q.amount ≤ toUint64 sl.asset.amount)
    (hupsert : unstakeLogUpsert s.unstakingLogs q.sym.code frm q now = .ok ulogs)
    (hss : ssFind s.stakeStats q.sym.code = some row)
    (hut : get_unstake_time s = .ok d) :
    unstake frm q 0 auth now s = .ok { s with
      stakingLogs := unstakeLogUpdate s.stakingLogs q.sym.code frm q sl,
      unstakingLogs := ulogs,
      stakeStats := ssMod s.stakeStats q.sym.code
        (fun r => { r with
          unstaking := { r.unstaking with amount := r.unstaking.amount + q.amount },
          staking := { r.staking with amount := r.staking.amount - q.amount } }) } := by
  unfold unstake
  rw [if_neg (by simp only [Bool.or_eq_true, not_not]; exact Or.inl hauth)]
  simp only [hen]
  rw [if_neg (by simp [hv]), if_neg (not_not_intro hp)]
  simp only [hsl]
  rw [if_neg (not_not_intro hguard)]
  rw [if_neg (by simp)]
  simp only [hupsert, hss, hut]

theorem deferrelease_ok_char {frm : Nat} {sym : Symbol} {auth : List Nat} {s : State}
    {ul : UnstakingLogRow} {row : StakeStatsRow} {acc : AccountRow}
    (hauth : auth.contains SELF = true)
    (hul : ulFind s.unstakingLogs sym.code frm = some ul)
    (hss : ssFind s.stakeStats sym.code = some row)
    (hacc : accFind s.accounts frm sym.code = some acc) :
    deferrelease frm sym auth s = .ok { s with
      unstakingLogs := ulErase s.unstakingLogs sym.code frm,
      stakeStats := ssMod s.stakeStats sym.code
        (fun r => { r with unstaking := { r.unstaking with amount := r.unstaking.amount - ul.asset.amount } }),
      accounts := accMod s.accounts frm sym.code
        (fun a => { a with stakeBalance := { a.stakeBalance with amount := a.stakeBalance.amount - ul.asset.amount } }) } := by
  unfold deferrelease
  rw [if_neg (by simpa using hauth)]
  simp only [hul, hss, hacc]

end ACCToken

namespace ACCToken

/- ---------------------------------------------------------------------
Overdraft characterizations (transfer / stake / lock debit only the
available balance).
--------------------------------------------------------------------- -/

theorem sub_balance_overdrawn {frm : Nat} {q : Asset} {s : State} {acc : AccountRow}
    (hacc : accFind s.accounts frm q.sym.code = some acc)
    (hover : acc.balance.amount - acc.lockBalance.amount - acc.stakeBalance.amount < q.amount) :
    sub_balance frm q s = .error .overdrawnBalance := by
  unfold sub_balance
  simp only [hacc]
  rw [if_pos (not_le.mpr hover)]

theorem sub_balance_ok {frm : Nat} {q : Asset} {s : State} {acc : AccountRow}
    (hacc : accFind s.accounts frm q.sym.code = some acc)
    (hle : q.amount ≤ acc.balance.amount - acc.lockBalance.amount - acc.stakeBalance.amount)
    (hbsym : acc.balance.sym = q.sym)
    (hb1 : -maxAmount ≤ acc.balance.amount - q.amount)
    (hb2 : acc.balance.amount - q.amount ≤ maxAmount) :
    sub_balance frm q s = .ok { s with accounts := accMod s.accounts frm q.sym.code (fun a => { a with balance := ⟨acc.balance.amount - q.amount, acc.balance.sym⟩ }) } := by
  have hsubc : Asset.subChecked acc.balance q =
      .ok ⟨acc.balance.amount - q.amount, acc.balance.sym⟩ := by
    unfold Asset.subChecked
    rw [if_neg (not_not_intro hbsym), if_neg (by omega), if_neg (by omega)]
  unfold sub_balance
  simp only [hacc]
  rw [if_neg (not_not_intro hle)]
  simp only [hsubc]

theorem transfer_overdrawn_char {frm dst : Nat} {q : Asset} {memo auth : List Nat}
    {s : State} {st : CurrencyStats} {acc : AccountRow}
    (hen : assert_status s cfgTStatus = .ok ())
    (hne : (frm == dst) = false)
    (hauth : auth.contains frm = true)
    (hchain : s.chainAccounts.contains dst = true)
    (hst : stFind s.stats q.sym.code = some st)
    (hv : q.is_valid = true) (hp : 0 < q.amount)
    (hsym : q.sym = st.supply.sym) (hmemo : memo.length ≤ 256)
    (hacc : accFind s.accounts frm q.sym.code = some acc)
    (hover : acc.balance.amount - acc.lockBalance.amount - acc.stakeBalance.amount < q.amount) :
    transfer frm dst q memo auth s = .error .overdrawnBalance := by
  unfold transfer
  simp only [hen]
  rw [if_neg (by simp [hne]), if_neg (by simpa using hauth), if_neg (by simpa using hchain)]
  simp only [hst]
  rw [if_neg (by simp [hv]), if_neg (not_not_intro hp), if_neg (by simp [hsym]),
      if_neg (not_not_intro hmemo)]
  simp only [sub_balance_overdrawn hacc hover]

theorem transfer_succeeds_char {frm dst : Nat} {q : Asset} {memo auth : List Nat}
    {s : State} {st : CurrencyStats} {acc : AccountRow}
    (hen : assert_status s cfgTStatus = .ok ())
    (hne : (frm == dst) = false)
    (hauth : auth.contains frm = true)
    (hchain : s.chainAccounts.contains dst = true)
    (hst : stFind s.stats q.sym.code = some st)
    (hv : q.is_valid = true) (hp : 0 < q.amount)
    (hsym : q.sym = st.supply.sym) (hmemo : memo.length ≤ 256)
    (hacc : accFind s.accounts frm q.sym.code = some acc)
    (hle : q.amount ≤ acc.balance.amount - acc.lockBalance.amount - acc.stakeBalance.amount)
    (hbsym : acc.balance.sym = q.sym)
    (hb1 : -maxAmount ≤ acc.balance.amount - q.amount)
    (hb2 : acc.balance.amount - q.amount ≤ maxAmount)
    (hdstnone : accFind s.accounts dst q.sym.code = none) :
    ∃ s2, transfer frm dst q memo auth s = .ok s2 := by
  have hsub := sub_balance_ok hacc hle hbsym hb1 hb2
  unfold transfer
  simp only [hen]
  rw [if_neg (by simp [hne]), if_neg (by simpa using hauth), if_neg (by simpa using hchain)]
  simp only [hst]
  rw [if_neg (by simp [hv]), if_neg (not_not_intro hp), if_neg (by simp [hsym]),
      if_neg (not_not_intro hmemo)]
  simp only [hsub]
  have hfind2 : accFind
      (accMod s.accounts frm q.sym.code
        (fun a => { a with balance := ⟨acc.balance.amount - q.amount, acc.balance.sym⟩ }))
      dst q.sym.code = none := by
    rw [accFind_accMod_other s.accounts frm q.sym.code
      (fun a => { a with balance := ⟨acc.balance.amount - q.amount, acc.balance.sym⟩ })
      dst q.sym.code
      (by intro hpair; simp [hpair.1] at hne)
      (fun a _ => congrArg Symbol.code hbsym)]
    exact hdstnone
  unfold add_balance
  dsimp only []
  simp only [hfind2]
  exact ⟨_, rfl⟩

theorem stake_overdrawn_char {frm : Nat} {q : Asset} {auth : List Nat} {s : State}
    {acc : AccountRow}
    (hauth : auth.contains frm = true)
    (hen : assert_status s cfgSStatus = .ok ())
    (hv : q.is_valid = true) (hp : 0 < q.amount)
    (hacc : accFind s.accounts frm q.sym.code = some acc)
    (hover : acc.balance.amount - acc.lockBalance.amount - acc.stakeBalance.amount < q.amount) :
    stake frm q auth s = .error .overdrawnBalance := by
  unfold stake
  rw [if_neg (by simpa using hauth)]
  simp only [hen]
  rw [if_neg (by simp [hv]), if_neg (not_not_intro hp)]
  simp only [hacc]
  rw [if_pos (not_le.mpr hover)]

theorem lock_overdrawn_char {acct : Nat} {q : Asset} {auth : List Nat} {s : State}
    {acc : AccountRow}
    (hauth : auth.contains SELF = true)
    (hacc : accFind s.accounts acct q.sym.code = some acc)
    (hover : acc.balance.amount - acc.lockBalance.amount - acc.stakeBalance.amount < q.amount) :
    lock acct q auth s = .error .overdrawnBalance := by
  unfold lock
  rw [if_neg (by simpa using hauth)]
  simp only [hacc]
  rw [if_pos (not_le.mpr hover)]

theorem lock_succeeds_char {acct : Nat} {q : Asset} {auth : List Nat} {s : State}
    {acc : AccountRow}
    (hauth : auth.contains SELF = true)
    (hacc : accFind s.accounts acct q.sym.code = some acc)
    (hle : q.amount ≤ acc.balance.amount - acc.lockBalance.amount - acc.stakeBalance.amount)
    (hlsym : acc.lockBalance.sym = q.sym)
    (hl1 : -maxAmount ≤ acc.lockBalance.amount + q.amount)
    (hl2 : acc.lockBalance.amount + q.amount ≤ maxAmount) :
    ∃ s2, lock acct q auth s = .ok s2 := by
  have haddc : Asset.addChecked acc.lockBalance q =
      .ok ⟨acc.lockBalance.amount + q.amount, acc.lockBalance.sym⟩ := by
    unfold Asset.addChecked
    rw [if_neg (not_not_intro hlsym), if_neg (by omega), if_neg (by omega)]
  unfold lock
  rw [if_neg (by simpa using hauth)]
  simp only [hacc]
  rw [if_neg (not_not_intro hle)]
  simp only [haddc]
  exact ⟨_, rfl⟩

end ACCToken

namespace ACCToken


theorem step_w1 : init [SELF] s0 = .ok w1 := by decide

theorem step_w2 : create 1 ⟨10000000, symSYM⟩ [SELF] w1 = .ok w2 := by decide

theorem step_w3 : issue 1 ⟨5000000, symSYM⟩ [] [1] w2 = .ok w3 := by decide

theorem step_w4 : stake 1 ⟨1000000, symSYM⟩ [1] w3 = .ok w4 := by decide

theorem step_w5 : unstake 1 ⟨400000, symSYM⟩ 0 [1] 1000 w4 = .ok w5 := by decide

theorem step_wBug : lock 1 ⟨-1, symSYM⟩ [SELF] w3 = .ok wBug := by decide

theorem reachable_w3 : Reachable w3 :=
  Reachable.step
    (Reachable.step
      (Reachable.step (Reachable.base [1, 2]) (Step.initS step_w1))
      (Step.createS step_w2))
    (Step.issueS step_w3)

theorem reachable_w5 : Reachable w5 :=
  Reachable.step (Reachable.step reachable_w3 (Step.stakeS step_w4)) (Step.unstakeS step_w5)

theorem reachable_wBug : Reachable wBug :=
  Reachable.step reachable_w3 (Step.lockS step_wBug)

/- ---------------------------------------------------------------------
Config round trips (for the unstake-delay claim).
--------------------------------------------------------------------- -/

theorem cfgFind_cfgSet_self (l : List ConfigRow) (k : Nat) (v : List Nat) :
    ∃ c : ConfigRow, cfgFind (cfgSet l k v) k = some c ∧ c.value = v := by
  unfold cfgSet
  cases h : cfgFind l k with
  | none =>
    refine ⟨⟨k, v⟩, ?_, rfl⟩
    unfold cfgFind
    simp [List.find?, cfgMatch]
  | some c =>
    refine ⟨{ c with value := v }, ?_, rfl⟩
    unfold cfgFind at h ⊢
    rw [find?_modifyFirst_self (cfgMatch k) (fun c => { c with value := v })
      (fun a ha => ha) l, h]
    rfl

set_option maxRecDepth 4000 in
theorem stoul_natToBytes_fin : ∀ m : Fin 256, stoulModel (natToBytes m.val) = some m.val := by
  decide

theorem setust_ok_inv {n : Nat} {auth : List Nat} {s s2 : State}
    (h : setust n auth s = .ok s2) :
    s2.configs = cfgSet s.configs cfgUnstakeTime (natToBytes (n % 256)) := by
  unfold setust set_config at h
  split at h
  next => exact congrArg State.configs (Except.ok.inj h).symm
  next => exact absurd h (by simp)

theorem get_unstake_time_after_setust {n : Nat} {auth : List Nat} {s s2 : State}
    (h : setust n auth s = .ok s2) :
    get_unstake_time s2 = .ok (n % 256) := by
  have hc := setust_ok_inv h
  obtain ⟨c, hfind, hval⟩ := cfgFind_cfgSet_self s.configs cfgUnstakeTime (natToBytes (n % 256))
  have hstoul : stoulModel c.value = some (n % 256) := by
    rw [hval]
    exact stoul_natToBytes_fin ⟨n % 256, Nat.mod_lt n (by omega)⟩
  unfold get_unstake_time
  rw [hc, hfind]
  simp only [hstoul]

end ACCToken

namespace ACCToken

/- ---------------------------------------------------------------------
Claim theorems.
--------------------------------------------------------------------- -/

/-- Claim C1: invoking deferrelease for an (account, symbol) with no pending
UnstakeLogEntry fails (the end-iterator dereference aborts) and, the action
being all-or-nothing, leaves every table unchanged; the error plays the role
of the spec's NoPendingUnstake. -/
theorem deferrelease_on_absent_entry_fails {frm : Nat} {sym : Symbol} {auth : List Nat}
    {s : State}
    (hauth : auth.contains SELF = true)
    (hnone : ulFind s.unstakingLogs sym.code frm = none) :
    deferrelease frm sym auth s = .error .cannotDereferenceEnd := by
  unfold deferrelease
  rw [if_neg (by simpa using hauth)]
  simp only [hnone]

/-- Witness for C1: in the concrete trace, the release for account 1 has
already fired in w6; replaying it fails and returns the dereference error. -/
theorem deferrelease_on_absent_entry_fails_witness :
    ([SELF] : List Nat).contains SELF = true ∧
    ulFind w6.unstakingLogs symSYM.code 1 = none ∧
    deferrelease 1 symSYM [SELF] w6 = .error .cannotDereferenceEnd :=
  ⟨by decide, by decide, deferrelease_on_absent_entry_fails (by decide) (by decide)⟩

/-- Claim C2 (refuted, code bug): the spec requires balance ≥ locked + staked
≥ 0 after every mutating operation, but lock performs no positivity check on
its quantity, so locking a negative amount drives lock_balance below zero in
a reachable state: wBug is reached by init, create, issue, then
lock(1, -0.0001 SYM) with the contract's own authority. -/
theorem lock_negative_quantity_breaks_balance_bound :
    Reachable wBug ∧ ¬ balanceInv wBug :=
  ⟨reachable_wBug, by unfold balanceInv; decide⟩

/-- Claim C3: in every reachable state and for every symbol, StakeStat.staking
is the sum of the StakeLogEntry amounts and StakeStat.unstaking the sum of the
UnstakeLogEntry amounts of that symbol (so every stake, unstake and
deferrelease preserves both identities). -/
theorem stake_stats_match_log_sums {s : State} (h : Reachable s) (code : Nat) :
    stakingVal s.stakeStats code = sumSL s.stakingLogs code ∧
    unstakingVal s.stakeStats code = sumUL s.unstakingLogs code :=
  ⟨(inv_reachable h).stakingEq code, (inv_reachable h).unstakingEq code⟩

/-- Witness for C3: the identities hold in the concrete state w5 (reached by
init, create, issue, stake, then a deferred unstake). -/
theorem stake_stats_match_log_sums_witness :
    stakingVal w5.stakeStats symSYM.code = sumSL w5.stakingLogs symSYM.code ∧
    unstakingVal w5.stakeStats symSYM.code = sumUL w5.unstakingLogs symSYM.code :=
  stake_stats_match_log_sums reachable_w5 symSYM.code

/-- Claim C9: in every reachable state, each account's stake_balance is the
StakeLogEntry amount for that account and symbol (0 if absent) plus the
UnstakeLogEntry amount (0 if absent); every staking operation preserves this
decomposition of the staked total into active and in-flight portions. -/
theorem stake_balance_decomposition {s : State} (h : Reachable s) (owner code : Nat) :
    stakeBalVal s.accounts owner code =
      slAmt s.stakingLogs code owner + ulAmt s.unstakingLogs code owner :=
  (inv_reachable h).decompEq owner code

/-- Witness for C9: the decomposition holds for account 1 in the concrete
state w5, where 100.0000 SYM staked splits into 60.0000 active and 40.0000
awaiting release. -/
theorem stake_balance_decomposition_witness :
    stakeBalVal w5.accounts 1 symSYM.code =
      slAmt w5.stakingLogs symSYM.code 1 + ulAmt w5.unstakingLogs symSYM.code 1 :=
  stake_balance_decomposition reachable_w5 1 symSYM.code

/-- Claim C10: setust takes a uint8_t, so the stored unstake delay after any
successful setust(n) is n mod 256 ≤ 255 seconds, although init defaults the
delay to 86400 seconds; get_unstake_time returns exactly the stored value
parsed back as a number. -/
theorem setust_truncates_to_uint8 :
    (∀ (n : Nat) (auth : List Nat) (s s2 : State), setust n auth s = .ok s2 →
      get_unstake_time s2 = .ok (n % 256) ∧ n % 256 ≤ 255) ∧
    get_unstake_time w1 = .ok 86400 := by
  constructor
  · intro n auth s s2 h
    exact ⟨get_unstake_time_after_setust h, by omega⟩
  · decide

/-- Witness for C10: setust(300) on the freshly initialised state stores
300 mod 256 = 44, and get_unstake_time reads 44 back. -/
theorem setust_truncates_to_uint8_witness :
    get_unstake_time wUst = .ok (300 % 256) ∧ 300 % 256 ≤ 255 :=
  setust_truncates_to_uint8.1 300 [SELF] w1 wUst (by decide)

end ACCToken

namespace ACCToken


/-- Claim C5 (spec-modelled: the repository code has no cap-raise action, so
raise_cap here is the definition transcribed from spec section 4.2):
raise_cap demands the caller be the token's issuer, fails with
BelowCurrentSupply whenever the new cap is under the current supply, and on
success rewrites only the max_supply field of the stats row. -/
theorem raise_cap_checks_issuer_and_supply {issuer : Nat} {nm : Asset} {auth : List Nat}
    {s : State} {st : CurrencyStats}
    (hst : stFind s.stats nm.sym.code = some st)
    (hiss : issuer = st.issuer) (hauth : auth.contains issuer = true) :
    (nm.amount < st.supply.amount → raise_cap issuer nm auth s = .error .belowCurrentSupply) ∧
    (st.supply.amount ≤ nm.amount → raise_cap issuer nm auth s = .ok { s with stats := stMod s.stats nm.sym.code (fun r => { r with maxSupply := nm }) }) ∧
    (∀ (who : Nat) (auth2 : List Nat), auth2.contains st.issuer = false →
      raise_cap who nm auth2 s = .error .missingAuthority) := by
  refine ⟨?_, ?_, ?_⟩
  · intro hlt
    have h2 : st.issuer ∈ auth := by rw [← hiss]; simpa using hauth
    unfold raise_cap
    simp only [hst]
    rw [if_neg (by simp [hiss, h2]), if_pos hlt]
  · intro hge
    have h2 : st.issuer ∈ auth := by rw [← hiss]; simpa using hauth
    unfold raise_cap
    simp only [hst]
    rw [if_neg (by simp [hiss, h2]), if_neg (not_lt.mpr hge)]
  · intro who auth2 hna
    have hna2 : st.issuer ∉ auth2 := by simpa using hna
    unfold raise_cap
    simp only [hst]
    rw [if_pos (by
      intro hcon
      simp only [Bool.and_eq_true, beq_iff_eq] at hcon
      rw [hcon.1] at hcon
      exact absurd (by simpa using hcon.2) hna2)]

/-- Witness for C5: over the concrete state w3 (supply 500.0000 SYM, cap
1000.0000 SYM, issuer 1), lowering the cap to 400.0000 fails with
BelowCurrentSupply, raising it to 600.0000 succeeds updating only
max_supply, and a non-issuer caller is rejected. -/
theorem raise_cap_checks_issuer_and_supply_witness :
    raise_cap 1 ⟨4000000, symSYM⟩ [1] w3 = .error .belowCurrentSupply ∧
    raise_cap 1 ⟨6000000, symSYM⟩ [1] w3 = .ok { w3 with stats := stMod w3.stats symSYM.code (fun r => { r with maxSupply := ⟨6000000, symSYM⟩ }) } ∧
    raise_cap 2 ⟨6000000, symSYM⟩ [2] w3 = .error .missingAuthority :=
  ⟨(@raise_cap_checks_issuer_and_supply 1 ⟨4000000, symSYM⟩ [1] w3
      ⟨⟨5000000, symSYM⟩, ⟨10000000, symSYM⟩, 1⟩ (by decide) rfl (by decide)).1 (by decide),
   (@raise_cap_checks_issuer_and_supply 1 ⟨6000000, symSYM⟩ [1] w3
      ⟨⟨5000000, symSYM⟩, ⟨10000000, symSYM⟩, 1⟩ (by decide) rfl (by decide)).2.1 (by decide),
   (@raise_cap_checks_issuer_and_supply 1 ⟨6000000, symSYM⟩ [1] w3
      ⟨⟨5000000, symSYM⟩, ⟨10000000, symSYM⟩, 1⟩ (by decide) rfl (by decide)).2.2 2 [2] (by decide)⟩

/-- Claim C7: transfer, stake and lock debit only the available balance
(balance - locked - staked): each fails with the Overdrawn error as soon as
the quantity exceeds it, and transfer succeeds when the quantity is within
it (given a well-formed sender row and a fresh receiver). -/
theorem available_balance_gates :
    (∀ (s : State) (frm dst : Nat) (q : Asset) (memo auth : List Nat)
        (st : CurrencyStats) (acc : AccountRow),
      assert_status s cfgTStatus = .ok () → (frm == dst) = false →
      auth.contains frm = true → s.chainAccounts.contains dst = true →
      stFind s.stats q.sym.code = some st → q.is_valid = true → 0 < q.amount →
      q.sym = st.supply.sym → memo.length ≤ 256 →
      accFind s.accounts frm q.sym.code = some acc →
      (acc.balance.amount - acc.lockBalance.amount - acc.stakeBalance.amount < q.amount →
        transfer frm dst q memo auth s = .error .overdrawnBalance) ∧
      (q.amount ≤ acc.balance.amount - acc.lockBalance.amount - acc.stakeBalance.amount →
        acc.balance.sym = q.sym → -maxAmount ≤ acc.balance.amount - q.amount →
        acc.balance.amount - q.amount ≤ maxAmount →
        accFind s.accounts dst q.sym.code = none →
        ∃ s2, transfer frm dst q memo auth s = .ok s2)) ∧
    (∀ (s : State) (frm : Nat) (q : Asset) (auth : List Nat) (acc : AccountRow),
      auth.contains frm = true → assert_status s cfgSStatus = .ok () →
      q.is_valid = true → 0 < q.amount →
      accFind s.accounts frm q.sym.code = some acc →
      acc.balance.amount - acc.lockBalance.amount - acc.stakeBalance.amount < q.amount →
      stake frm q auth s = .error .overdrawnBalance) ∧
    (∀ (s : State) (acct : Nat) (q : Asset) (auth : List Nat) (acc : AccountRow),
      auth.contains SELF = true →
      accFind s.accounts acct q.sym.code = some acc →
      acc.balance.amount - acc.lockBalance.amount - acc.stakeBalance.amount < q.amount →
      lock acct q auth s = .error .overdrawnBalance) := by
  refine ⟨?_, ?_, ?_⟩
  · intro s frm dst q memo auth st acc hen hne hauth hchain hst hv hp hsym hmemo hacc
    refine ⟨fun hover => transfer_overdrawn_char hen hne hauth hchain hst hv hp hsym hmemo hacc hover, ?_⟩
    intro hle hbsym hb1 hb2 hdst
    exact transfer_succeeds_char hen hne hauth hchain hst hv hp hsym hmemo hacc hle hbsym hb1 hb2 hdst
  · intro s frm q auth acc hauth hen hv hp hacc hover
    exact stake_overdrawn_char hauth hen hv hp hacc hover
  · intro s acct q auth acc hauth hacc hover
    exact lock_overdrawn_char hauth hacc hover

/-- Witness for C7: in the state sC7 account 1 holds balance 100.0000 SYM
with 30.0000 locked and 60.0000 staked (available 10.0000); transferring
11.0000 fails with the Overdrawn error, transferring 10.0000 succeeds, and
staking or locking 11.0000 fails the same way. -/
theorem available_balance_gates_witness :
    transfer 1 2 ⟨110000, symSYM⟩ [] [1] sC7 = .error .overdrawnBalance ∧
    (∃ s2, transfer 1 2 ⟨100000, symSYM⟩ [] [1] sC7 = .ok s2) ∧
    stake 1 ⟨110000, symSYM⟩ [1] sC7 = .error .overdrawnBalance ∧
    lock 1 ⟨110000, symSYM⟩ [SELF] sC7 = .error .overdrawnBalance :=
  ⟨(available_balance_gates.1 sC7 1 2 ⟨110000, symSYM⟩ [] [1]
      ⟨⟨1000000, symSYM⟩, ⟨10000000, symSYM⟩, 1⟩
      ⟨⟨1000000, symSYM⟩, ⟨300000, symSYM⟩, ⟨600000, symSYM⟩⟩
      (by decide) (by decide) (by decide) (by decide) (by decide) (by decide)
      (by decide) (by decide) (by decide) (by decide)).1 (by decide),
   (available_balance_gates.1 sC7 1 2 ⟨100000, symSYM⟩ [] [1]
      ⟨⟨1000000, symSYM⟩, ⟨10000000, symSYM⟩, 1⟩
      ⟨⟨1000000, symSYM⟩, ⟨300000, symSYM⟩, ⟨600000, symSYM⟩⟩
      (by decide) (by decide) (by decide) (by decide) (by decide) (by decide)
      (by decide) (by decide) (by decide) (by decide)).2
      (by decide) (by decide) (by decide) (by decide) (by decide),
   available_balance_gates.2.1 sC7 1 ⟨110000, symSYM⟩ [1]
      ⟨⟨1000000, symSYM⟩, ⟨300000, symSYM⟩, ⟨600000, symSYM⟩⟩
      (by decide) (by decide) (by decide) (by decide) (by decide) (by decide),
   available_balance_gates.2.2 sC7 1 ⟨110000, symSYM⟩ [SELF]
      ⟨⟨1000000, symSYM⟩, ⟨300000, symSYM⟩, ⟨600000, symSYM⟩⟩
      (by decide) (by decide) (by decide)⟩

end ACCToken

namespace ACCToken

/-- Claim C8: for an account with no active stake entry and sufficient
available balance, stake(u, q) followed by an immediate unstake(u, q, true)
authorized by the contract account restores the pre-stake picture whatever
the symbol's existing StakeStat baseline (absent, or already carrying other
accounts' staking): the stake_balance returns to its prior value, the
StakeLogEntry created by the stake is removed again, and StakeStat.staking
is back at its baseline value. -/
theorem stake_unstake_round_trip {frm : Nat} {q : Asset} {auth : List Nat} {s : State}
    {acc : AccountRow} {nsb : Asset}
    (hauth : auth.contains frm = true)
    (hen : assert_status s cfgSStatus = .ok ())
    (hv : q.is_valid = true) (hp : 0 < q.amount)
    (hacc : accFind s.accounts frm q.sym.code = some acc)
    (havail : q.amount ≤ acc.balance.amount - acc.lockBalance.amount - acc.stakeBalance.amount)
    (hnsb : Asset.addChecked acc.stakeBalance q = .ok nsb)
    (hslnone : slFind s.stakingLogs q.sym.code frm = none) :
    ∃ s1 s2, stake frm q auth s = .ok s1 ∧
      unstake frm q 1 [SELF] 0 s1 = .ok s2 ∧
      slFind s2.stakingLogs q.sym.code frm = none ∧
      stakeBalVal s2.accounts frm q.sym.code = acc.stakeBalance.amount ∧
      stakingVal s2.stakeStats q.sym.code = stakingVal s.stakeStats q.sym.code := by
  have hlog : stakeLogUpsert s.stakingLogs q.sym.code frm q =
      (q.sym.code, ⟨frm, q⟩) :: s.stakingLogs := by
    unfold stakeLogUpsert
    rw [hslnone]
  have hsl1 : slFind ((q.sym.code, ⟨frm, q⟩) :: s.stakingLogs) q.sym.code frm =
      some ⟨frm, q⟩ := slFind_cons_self s.stakingLogs q.sym.code ⟨frm, q⟩
  have hacc1 : accFind (accMod s.accounts frm q.sym.code (fun a => { a with stakeBalance := nsb })) frm q.sym.code = some { acc with stakeBalance := nsb } := by
    rw [accFind_accMod_self s.accounts frm q.sym.code
      (fun a => { a with stakeBalance := nsb }) (fun a ha => ha), hacc]
    rfl
  have hupd : unstakeLogUpdate ((q.sym.code, ⟨frm, q⟩) :: s.stakingLogs) q.sym.code frm q
      ⟨frm, q⟩ = s.stakingLogs := by
    unfold unstakeLogUpdate
    rw [if_pos (by simp)]
    simp [slErase, eraseFirst, slMatch]
  obtain ⟨hna, -, -, -, -⟩ := Asset.addChecked_ok hnsb
  cases hss0 : ssFind s.stakeStats q.sym.code with
  | none =>
    have hstats : stakeStatsUpsert s.stakeStats q.sym.code q =
        (q.sym.code, ⟨q, ⟨0, q.sym⟩⟩) :: s.stakeStats := by
      unfold stakeStatsUpsert
      rw [hss0]
    have h1 := stake_ok_char hauth hen hv hp hacc havail hnsb
    rw [hlog, hstats] at h1
    have hss1 : ssFind ((q.sym.code, ⟨q, ⟨0, q.sym⟩⟩) :: s.stakeStats) q.sym.code =
        some ⟨q, ⟨0, q.sym⟩⟩ := ssFind_cons_self s.stakeStats q.sym.code ⟨q, ⟨0, q.sym⟩⟩ rfl
    have h2 := @unstake_immediate_ok_char frm q 1 [SELF] 0
      { s with stakingLogs := (q.sym.code, ⟨frm, q⟩) :: s.stakingLogs, stakeStats := (q.sym.code, ⟨q, ⟨0, q.sym⟩⟩) :: s.stakeStats, accounts := accMod s.accounts frm q.sym.code (fun a => { a with stakeBalance := nsb }) }
      ⟨frm, q⟩ ⟨q, ⟨0, q.sym⟩⟩ { acc with stakeBalance := nsb }
      (by decide) (by decide) hen hv hp hsl1 (le_refl _) hss1 hacc1
    refine ⟨_, _, h1, h2, ?_, ?_, ?_⟩
    · dsimp only []
      rw [hupd]
      exact hslnone
    · dsimp only []
      unfold stakeBalVal
      rw [accFind_accMod_self (accMod s.accounts frm q.sym.code (fun a => { a with stakeBalance := nsb })) frm q.sym.code (fun a => { a with stakeBalance := { a.stakeBalance with amount := a.stakeBalance.amount - q.amount } }) (fun a ha => ha)]
      rw [hacc1]
      dsimp only [Option.map]
      omega
    · dsimp only []
      have h3 : ssFind (ssMod ((q.sym.code, ⟨q, ⟨0, q.sym⟩⟩) :: s.stakeStats) q.sym.code
          (fun r => { r with staking := { r.staking with amount := r.staking.amount - q.amount } }))
          q.sym.code = some { staking := ⟨q.amount - q.amount, q.sym⟩, unstaking := ⟨0, q.sym⟩ } := by
        rw [ssFind_ssMod_self ((q.sym.code, ⟨q, ⟨0, q.sym⟩⟩) :: s.stakeStats) q.sym.code
          (fun r => { r with staking := { r.staking with amount := r.staking.amount - q.amount } })
          (fun r => rfl),
          ssFind_cons_self s.stakeStats q.sym.code ⟨q, ⟨0, q.sym⟩⟩ rfl]
        rfl
      simp only [stakingVal, h3, hss0]
      omega
  | some row0 =>
    have hstats : stakeStatsUpsert s.stakeStats q.sym.code q =
        ssMod s.stakeStats q.sym.code (fun r => { r with staking := { r.staking with amount := r.staking.amount + q.amount } }) := by
      unfold stakeStatsUpsert
      rw [hss0]
    have h1 := stake_ok_char hauth hen hv hp hacc havail hnsb
    rw [hlog, hstats] at h1
    have hss1 : ssFind (ssMod s.stakeStats q.sym.code (fun r => { r with staking := { r.staking with amount := r.staking.amount + q.amount } })) q.sym.code = some { row0 with staking := { row0.staking with amount := row0.staking.amount + q.amount } } := by
      rw [ssFind_ssMod_self s.stakeStats q.sym.code
        (fun r => { r with staking := { r.staking with amount := r.staking.amount + q.amount } })
        (fun r => rfl), hss0]
      rfl
    have h2 := @unstake_immediate_ok_char frm q 1 [SELF] 0
      { s with stakingLogs := (q.sym.code, ⟨frm, q⟩) :: s.stakingLogs, stakeStats := ssMod s.stakeStats q.sym.code (fun r => { r with staking := { r.staking with amount := r.staking.amount + q.amount } }), accounts := accMod s.accounts frm q.sym.code (fun a => { a with stakeBalance := nsb }) }
      ⟨frm, q⟩ { row0 with staking := { row0.staking with amount := row0.staking.amount + q.amount } } { acc with stakeBalance := nsb }
      (by decide) (by decide) hen hv hp hsl1 (le_refl _) hss1 hacc1
    refine ⟨_, _, h1, h2, ?_, ?_, ?_⟩
    · dsimp only []
      rw [hupd]
      exact hslnone
    · dsimp only []
      unfold stakeBalVal
      rw [accFind_accMod_self (accMod s.accounts frm q.sym.code (fun a => { a with stakeBalance := nsb })) frm q.sym.code (fun a => { a with stakeBalance := { a.stakeBalance with amount := a.stakeBalance.amount - q.amount } }) (fun a ha => ha)]
      rw [hacc1]
      dsimp only [Option.map]
      omega
    · dsimp only []
      have h3 : ssFind (ssMod (ssMod s.stakeStats q.sym.code (fun r => { r with staking := { r.staking with amount := r.staking.amount + q.amount } })) q.sym.code (fun r => { r with staking := { r.staking with amount := r.staking.amount - q.amount } })) q.sym.code = some { row0 with staking := { row0.staking with amount := row0.staking.amount + q.amount - q.amount } } := by
        rw [ssFind_ssMod_self (ssMod s.stakeStats q.sym.code (fun r => { r with staking := { r.staking with amount := r.staking.amount + q.amount } })) q.sym.code
          (fun r => { r with staking := { r.staking with amount := r.staking.amount - q.amount } })
          (fun r => rfl), hss1]
        rfl
      simp only [stakingVal, h3, hss0]
      omega

/-- Witness for C8: in wC8 account 1 already has 100.0000 SYM staked
(StakeStat.staking = 100.0000, a nonzero baseline) and account 2 holds
100.0000 SYM unstaked; account 2 stakes 50.0000 and immediately unstakes it
with the contract authority, returning its stake balance to 0, removing its
staking-log entry and leaving StakeStat.staking at the 100.0000 baseline. -/
theorem stake_unstake_round_trip_witness :
    ∃ s1 s2, stake 2 ⟨500000, symSYM⟩ [2] wC8 = .ok s1 ∧
      unstake 2 ⟨500000, symSYM⟩ 1 [SELF] 0 s1 = .ok s2 ∧
      slFind s2.stakingLogs symSYM.code 2 = none ∧
      stakeBalVal s2.accounts 2 symSYM.code = (0 : Int) ∧
      stakingVal s2.stakeStats symSYM.code = stakingVal wC8.stakeStats symSYM.code :=
  @stake_unstake_round_trip 2 ⟨500000, symSYM⟩ [2] wC8
    ⟨⟨1000000, symSYM⟩, ⟨0, symSYM⟩, ⟨0, symSYM⟩⟩ ⟨500000, symSYM⟩
    (by decide) (by decide) (by decide) (by decide) (by decide) (by decide) (by decide)
    (by decide)

end ACCToken

namespace ACCToken

/-- Claim C4: two successful deferred unstakes before any release merge into a
single UnstakeLogEntry carrying q1 + q2 with request_time refreshed to the
second call, and the one subsequent release removes that entry, returns
StakeStat.unstaking to its baseline and decrements the account's
stake_balance by q1 + q2. -/
theorem deferred_unstakes_merge {frm : Nat} {q1 q2 : Asset} {auth : List Nat}
    {now1 now2 : Nat} {s : State} {sl : StakingLogRow} {row : StakeStatsRow}
    {acc : AccountRow} {d : Nat}
    (hauth : auth.contains frm = true)
    (hen : assert_status s cfgSStatus = .ok ())
    (hv1 : q1.is_valid = true) (hp1 : 0 < q1.amount)
    (hv2 : q2.is_valid = true) (hp2 : 0 < q2.amount)
    (hsym12 : q2.sym = q1.sym)
    (hsl : slFind s.stakingLogs q1.sym.code frm = some sl)
    (hslr : sl.asset.amount ≤ maxAmount)
    (hq12 : q1.amount + q2.amount ≤ sl.asset.amount)
    (hulnone : ulFind s.unstakingLogs q1.sym.code frm = none)
    (hss : ssFind s.stakeStats q1.sym.code = some row)
    (hut : get_unstake_time s = .ok d)
    (hacc : accFind s.accounts frm q1.sym.code = some acc) :
    ∃ s1 s2 s3,
      unstake frm q1 0 auth now1 s = .ok s1 ∧
      unstake frm q2 0 auth now2 s1 = .ok s2 ∧
      s2.unstakingLogs.countP (ulMatch q1.sym.code frm) = 1 ∧
      ulFind s2.unstakingLogs q1.sym.code frm =
        some ⟨frm, ⟨q1.amount + q2.amount, q1.sym⟩, now2⟩ ∧
      deferrelease frm q1.sym [SELF] s2 = .ok s3 ∧
      ulFind s3.unstakingLogs q1.sym.code frm = none ∧
      unstakingVal s3.stakeStats q1.sym.code = unstakingVal s.stakeStats q1.sym.code ∧
      stakeBalVal s3.accounts frm q1.sym.code =
        stakeBalVal s.accounts frm q1.sym.code - (q1.amount + q2.amount) := by
  obtain ⟨a2, sym2⟩ := q2
  dsimp only [] at hsym12 hp2 hq12
  subst hsym12
  obtain ⟨hq1l, hq1u⟩ := Asset.is_valid_bounds hv1
  have hsl0 : 0 ≤ sl.asset.amount := by omega
  have hupsert1 : unstakeLogUpsert s.unstakingLogs q1.sym.code frm q1 now1 =
      .ok ((q1.sym.code, ⟨frm, q1, now1⟩) :: s.unstakingLogs) := by
    unfold unstakeLogUpsert
    rw [hulnone]
  have hguard1 : toUint64 q1.amount ≤ toUint64 sl.asset.amount :=
    (toUint64_le_iff (by omega) (by omega) hsl0 hslr).mpr (by omega)
  have h1 := unstake_deferred_ok_char hauth hen hv1 hp1 hsl hguard1 hupsert1 hss hut
  have hne1 : ¬ toUint64 q1.amount = toUint64 sl.asset.amount := by
    intro hcon
    have := (toUint64_eq_iff (by omega) (by omega) hsl0 hslr).mp hcon
    omega
  have hupdate1 : unstakeLogUpdate s.stakingLogs q1.sym.code frm q1 sl =
      slMod s.stakingLogs q1.sym.code frm (fun r => { r with asset := { r.asset with amount := r.asset.amount - q1.amount } }) := by
    unfold unstakeLogUpdate
    rw [if_neg (by simpa using hne1)]
  rw [hupdate1] at h1
  have hsl2 : slFind (slMod s.stakingLogs q1.sym.code frm (fun r => { r with asset := { r.asset with amount := r.asset.amount - q1.amount } })) q1.sym.code frm = some { sl with asset := { sl.asset with amount := sl.asset.amount - q1.amount } } := by
    rw [slFind_slMod_self s.stakingLogs q1.sym.code frm
      (fun r => { r with asset := { r.asset with amount := r.asset.amount - q1.amount } })
      (fun r => rfl), hsl]
    rfl
  have hguard2 : toUint64 a2 ≤ toUint64 (sl.asset.amount - q1.amount) :=
    (toUint64_le_iff (by omega) (by omega) (by omega) (by omega)).mpr (by omega)
  have haddc : Asset.addChecked q1 ⟨a2, q1.sym⟩ = .ok ⟨q1.amount + a2, q1.sym⟩ := by
    unfold Asset.addChecked
    rw [if_neg (not_not_intro rfl), if_neg (by dsimp only []; omega),
      if_neg (by dsimp only []; omega)]
  have hupsert2 : unstakeLogUpsert ((q1.sym.code, ⟨frm, q1, now1⟩) :: s.unstakingLogs) q1.sym.code frm ⟨a2, q1.sym⟩ now2 = .ok ((q1.sym.code, ⟨frm, ⟨q1.amount + a2, q1.sym⟩, now2⟩) :: s.unstakingLogs) := by
    unfold unstakeLogUpsert
    rw [ulFind_cons_self s.unstakingLogs q1.sym.code ⟨frm, q1, now1⟩]
    simp only [haddc]
    simp [ulMod, modifyFirst, ulMatch]
  have hss2 : ssFind (ssMod s.stakeStats q1.sym.code (fun r => { r with unstaking := { r.unstaking with amount := r.unstaking.amount + q1.amount }, staking := { r.staking with amount := r.staking.amount - q1.amount } })) q1.sym.code = some { row with unstaking := { row.unstaking with amount := row.unstaking.amount + q1.amount }, staking := { row.staking with amount := row.staking.amount - q1.amount } } := by
    rw [ssFind_ssMod_self s.stakeStats q1.sym.code
      (fun r => { r with unstaking := { r.unstaking with amount := r.unstaking.amount + q1.amount }, staking := { r.staking with amount := r.staking.amount - q1.amount } })
      (fun r => rfl), hss]
    rfl
  have h2 := @unstake_deferred_ok_char frm ⟨a2, q1.sym⟩ auth now2
    { s with stakingLogs := slMod s.stakingLogs q1.sym.code frm (fun r => { r with asset := { r.asset with amount := r.asset.amount - q1.amount } }), unstakingLogs := (q1.sym.code, ⟨frm, q1, now1⟩) :: s.unstakingLogs, stakeStats := ssMod s.stakeStats q1.sym.code (fun r => { r with unstaking := { r.unstaking with amount := r.unstaking.amount + q1.amount }, staking := { r.staking with amount := r.staking.amount - q1.amount } }) }
    { sl with asset := { sl.asset with amount := sl.asset.amount - q1.amount } }
    { row with unstaking := { row.unstaking with amount := row.unstaking.amount + q1.amount }, staking := { row.staking with amount := row.staking.amount - q1.amount } }
    ((q1.sym.code, ⟨frm, ⟨q1.amount + a2, q1.sym⟩, now2⟩) :: s.unstakingLogs) d
    hauth hen hv2 hp2 hsl2 hguard2 hupsert2 hss2 hut
  have hul3 : ulFind ((q1.sym.code, ⟨frm, ⟨q1.amount + a2, q1.sym⟩, now2⟩) :: s.unstakingLogs) q1.sym.code frm = some ⟨frm, ⟨q1.amount + a2, q1.sym⟩, now2⟩ :=
    ulFind_cons_self s.unstakingLogs q1.sym.code ⟨frm, ⟨q1.amount + a2, q1.sym⟩, now2⟩
  have hss3 : ssFind (ssMod (ssMod s.stakeStats q1.sym.code (fun r => { r with unstaking := { r.unstaking with amount := r.unstaking.amount + q1.amount }, staking := { r.staking with amount := r.staking.amount - q1.amount } })) q1.sym.code (fun r => { r with unstaking := { r.unstaking with amount := r.unstaking.amount + a2 }, staking := { r.staking with amount := r.staking.amount - a2 } })) q1.sym.code = some { row with unstaking := { row.unstaking with amount := row.unstaking.amount + q1.amount + a2 }, staking := { row.staking with amount := row.staking.amount - q1.amount - a2 } } := by
    rw [ssFind_ssMod_self (ssMod s.stakeStats q1.sym.code (fun r => { r with unstaking := { r.unstaking with amount := r.unstaking.amount + q1.amount }, staking := { r.staking with amount := r.staking.amount - q1.amount } })) q1.sym.code
      (fun r => { r with unstaking := { r.unstaking with amount := r.unstaking.amount + a2 }, staking := { r.staking with amount := r.staking.amount - a2 } })
      (fun r => rfl), hss2]
    rfl
  have h3 := @deferrelease_ok_char frm q1.sym [SELF]
    { s with stakingLogs := unstakeLogUpdate (slMod s.stakingLogs q1.sym.code frm (fun r => { r with asset := { r.asset with amount := r.asset.amount - q1.amount } })) q1.sym.code frm ⟨a2, q1.sym⟩ { sl with asset := { sl.asset with amount := sl.asset.amount - q1.amount } }, unstakingLogs := (q1.sym.code, ⟨frm, ⟨q1.amount + a2, q1.sym⟩, now2⟩) :: s.unstakingLogs, stakeStats := ssMod (ssMod s.stakeStats q1.sym.code (fun r => { r with unstaking := { r.unstaking with amount := r.unstaking.amount + q1.amount }, staking := { r.staking with amount := r.staking.amount - q1.amount } })) q1.sym.code (fun r => { r with unstaking := { r.unstaking with amount := r.unstaking.amount + a2 }, staking := { r.staking with amount := r.staking.amount - a2 } }) }
    ⟨frm, ⟨q1.amount + a2, q1.sym⟩, now2⟩
    { row with unstaking := { row.unstaking with amount := row.unstaking.amount + q1.amount + a2 }, staking := { row.staking with amount := row.staking.amount - q1.amount - a2 } }
    acc (by decide) hul3 hss3 hacc
  refine ⟨_, _, _, h1, h2, ?_, ?_, h3, ?_, ?_, ?_⟩
  · dsimp only []
    have hfn : List.find? (ulMatch q1.sym.code frm) s.unstakingLogs = none := by
      have h0 := hulnone
      unfold ulFind at h0
      exact Option.map_eq_none'.mp h0
    rw [List.countP_cons,
      countP_eq_zero_of_find?_eq_none (ulMatch q1.sym.code frm) s.unstakingLogs hfn]
    simp [ulMatch]
  · dsimp only []
    exact hul3
  · dsimp only []
    have herase : ulErase ((q1.sym.code, (⟨frm, ⟨q1.amount + a2, q1.sym⟩, now2⟩ : UnstakingLogRow)) :: s.unstakingLogs) q1.sym.code frm = s.unstakingLogs := by
      simp [ulErase, eraseFirst, ulMatch]
    rw [herase]
    exact hulnone
  · dsimp only []
    have hss4 : ssFind (ssMod (ssMod (ssMod s.stakeStats q1.sym.code (fun r => { r with unstaking := { r.unstaking with amount := r.unstaking.amount + q1.amount }, staking := { r.staking with amount := r.staking.amount - q1.amount } })) q1.sym.code (fun r => { r with unstaking := { r.unstaking with amount := r.unstaking.amount + a2 }, staking := { r.staking with amount := r.staking.amount - a2 } })) q1.sym.code (fun r => { r with unstaking := { r.unstaking with amount := r.unstaking.amount - (⟨frm, ⟨q1.amount + a2, q1.sym⟩, now2⟩ : UnstakingLogRow).asset.amount } })) q1.sym.code = some { row with unstaking := { row.unstaking with amount := row.unstaking.amount + q1.amount + a2 - (q1.amount + a2) }, staking := { row.staking with amount := row.staking.amount - q1.amount - a2 } } := by
      rw [ssFind_ssMod_self (ssMod (ssMod s.stakeStats q1.sym.code (fun r => { r with unstaking := { r.unstaking with amount := r.unstaking.amount + q1.amount }, staking := { r.staking with amount := r.staking.amount - q1.amount } })) q1.sym.code (fun r => { r with unstaking := { r.unstaking with amount := r.unstaking.amount + a2 }, staking := { r.staking with amount := r.staking.amount - a2 } })) q1.sym.code
        (fun r => { r with unstaking := { r.unstaking with amount := r.unstaking.amount - (⟨frm, ⟨q1.amount + a2, q1.sym⟩, now2⟩ : UnstakingLogRow).asset.amount } })
        (fun r => rfl), hss3]
      rfl
    simp only [unstakingVal, hss4, hss]
    omega
  · dsimp only []
    have hacc4 : accFind (accMod s.accounts frm q1.sym.code (fun a => { a with stakeBalance := { a.stakeBalance with amount := a.stakeBalance.amount - (⟨frm, ⟨q1.amount + a2, q1.sym⟩, now2⟩ : UnstakingLogRow).asset.amount } })) frm q1.sym.code = some { acc with stakeBalance := { acc.stakeBalance with amount := acc.stakeBalance.amount - (q1.amount + a2) } } := by
      rw [accFind_accMod_self s.accounts frm q1.sym.code
        (fun a => { a with stakeBalance := { a.stakeBalance with amount := a.stakeBalance.amount - (⟨frm, ⟨q1.amount + a2, q1.sym⟩, now2⟩ : UnstakingLogRow).asset.amount } })
        (fun a ha => ha), hacc]
      rfl
    simp only [stakeBalVal, hacc4, hacc]

/-- Witness for C4: from the staked state w4 (account 1 holds an active stake
of 100.0000 SYM), deferred unstakes of 40.0000 at time 1000 and 30.0000 at
time 2000 merge into one pending entry of 70.0000 stamped 2000, and the one
release returns everything: unstaking back to baseline, stake_balance down by
70.0000. -/
theorem deferred_unstakes_merge_witness :
    ∃ s1 s2 s3,
      unstake 1 ⟨400000, symSYM⟩ 0 [1] 1000 w4 = .ok s1 ∧
      unstake 1 ⟨300000, symSYM⟩ 0 [1] 2000 s1 = .ok s2 ∧
      s2.unstakingLogs.countP (ulMatch symSYM.code 1) = 1 ∧
      ulFind s2.unstakingLogs symSYM.code 1 = some ⟨1, ⟨700000, symSYM⟩, 2000⟩ ∧
      deferrelease 1 symSYM [SELF] s2 = .ok s3 ∧
      ulFind s3.unstakingLogs symSYM.code 1 = none ∧
      unstakingVal s3.stakeStats symSYM.code = unstakingVal w4.stakeStats symSYM.code ∧
      stakeBalVal s3.accounts 1 symSYM.code = stakeBalVal w4.accounts 1 symSYM.code - 700000 :=
  @deferred_unstakes_merge 1 ⟨400000, symSYM⟩ ⟨300000, symSYM⟩ [1] 1000 2000 w4
    ⟨1, ⟨1000000, symSYM⟩⟩ ⟨⟨1000000, symSYM⟩, ⟨0, symSYM⟩⟩
    ⟨⟨5000000, symSYM⟩, ⟨0, symSYM⟩, ⟨1000000, symSYM⟩⟩ 86400
    (by decide) (by decide) (by decide) (by decide) (by decide) (by decide) (by decide)
    (by decide) (by decide) (by decide) (by decide) (by decide) (by decide) (by decide)

end ACCToken

namespace ACCToken

/-- Claim C6: issue fails with the SupplyExceeded error whenever the quantity
overshoots max_supply - supply; a successful issue adds the quantity to the
supply and credits the issuer, and an issue to a third party additionally
runs the internal transfer, as in the concrete scenario: after create of a
1000.0000 SYM cap, issue(issuer, 500.0000) and issue(bob, 100.0000) with
bob = account 2 distinct from issuer = account 1, the supply is 600.0000,
bob's balance 100.0000 and the issuer's balance 500.0000. -/
theorem issue_respects_cap_and_credits :
    (∀ (dst : Nat) (q : Asset) (memo auth : List Nat) (s : State) (st : CurrencyStats),
      assert_status s cfgIStatus = .ok () → q.sym.is_valid = true → memo.length ≤ 256 →
      stFind s.stats q.sym.code = some st → auth.contains st.issuer = true →
      q.is_valid = true → 0 < q.amount → q.sym = st.supply.sym →
      st.maxSupply.amount - st.supply.amount < q.amount →
      issue dst q memo auth s = .error .supplyExceeded) ∧
    (stFind w3.stats symSYM.code = some ⟨⟨5000000, symSYM⟩, ⟨10000000, symSYM⟩, 1⟩ ∧
     accFind w3.accounts 1 symSYM.code = some ⟨⟨5000000, symSYM⟩, ⟨0, symSYM⟩, ⟨0, symSYM⟩⟩ ∧
     issue 2 ⟨1000000, symSYM⟩ [] [1] w3 = .ok wC6 ∧
     stFind wC6.stats symSYM.code = some ⟨⟨6000000, symSYM⟩, ⟨10000000, symSYM⟩, 1⟩ ∧
     accFind wC6.accounts 2 symSYM.code = some ⟨⟨1000000, symSYM⟩, ⟨0, symSYM⟩, ⟨0, symSYM⟩⟩ ∧
     accFind wC6.accounts 1 symSYM.code = some ⟨⟨5000000, symSYM⟩, ⟨0, symSYM⟩, ⟨0, symSYM⟩⟩) := by
  constructor
  · intro dst q memo auth s st hen hsv hmemo hst hauth hv hp hsym hex
    unfold issue
    simp only [hen]
    rw [if_neg (by simp [hsv]), if_neg (not_not_intro hmemo)]
    simp only [hst]
    rw [if_neg (by simpa using hauth), if_neg (by simp [hv]), if_neg (not_not_intro hp),
        if_neg (by simp [hsym]), if_pos (not_le.mpr hex)]
  · exact ⟨by decide, by decide, by decide, by decide, by decide, by decide⟩

/-- Witness for C6: issuing 500.0001 SYM on top of the existing 500.0000
supply under the 1000.0000 cap fails with SupplyExceeded. -/
theorem issue_respects_cap_and_credits_witness :
    issue 1 ⟨5000001, symSYM⟩ [] [1] w3 = .error .supplyExceeded :=
  issue_respects_cap_and_credits.1 1 ⟨5000001, symSYM⟩ [] [1] w3
    ⟨⟨5000000, symSYM⟩, ⟨10000000, symSYM⟩, 1⟩
    (by decide) (by decide) (by decide) (by decide) (by decide) (by decide) (by decide)
    (by decide) (by decide)

end ACCToken
